import Mathlib

/-!
Shallow embedding of the scheduling core of the Production Schedule
Dashboard (src/ProductionScheduleDashboard.py).

Python strings are modelled as lists of characters, Python dicts holding
the cell entries as association lists keyed by the date-key string, and
calendar dates as year/month/day triples with real Gregorian arithmetic.
Each definition below translates one function of the source file; the
source line it comes from is recorded in its doc comment.
-/

/-- A Python string, modelled as its list of characters. -/
abbrev Str := List Char

/-- Convenience converter from Lean string literals into the model. -/
def lit (s : String) : Str := s.data

/-- Python whitespace test used by str.strip and the regex class for spaces. -/
def wsChar (c : Char) : Bool := c.isWhitespace

/-- Python regex word character for word boundaries (letters, digits, underscore). -/
def wordChar (c : Char) : Bool := c.isAlphanum || decide (c = '_')

/-- Python str.lower for the ASCII texts handled by the dashboard. -/
def lowerStr (s : Str) : Str := s.map Char.toLower

/-- Python str.startswith: the first argument is the candidate leading block. -/
def strStarts : Str → Str → Bool
  | [], _ => true
  | _ :: _, [] => false
  | a :: p, b :: l => decide (a = b) && strStarts p l

/-- Python str.endswith: the first argument is the candidate trailing block. -/
def strEnds (suf l : Str) : Bool := strStarts suf.reverse l.reverse

/-- Python substring containment, the `needle in hay` test. -/
def strContains (hay needle : Str) : Bool :=
  if strStarts needle hay then true
  else
    match hay with
    | [] => false
    | _ :: t => strContains t needle

/-- Removes trailing whitespace, one half of Python str.strip. -/
def dropTrailWs (l : Str) : Str := (l.reverse.dropWhile wsChar).reverse

/-- Python str.strip: removes leading and trailing whitespace. -/
def trimStr (l : Str) : Str := dropTrailWs (l.dropWhile wsChar)

/-- Removes the last n characters of a string. -/
def dropLastN (l : Str) (n : Nat) : Str := (l.reverse.drop n).reverse

/-- The decimal digit character for a value below ten. -/
def digitChar (n : Nat) : Char := Char.ofNat (48 + n)

/-- Fuel-driven decimal rendering of a natural number. -/
def natToStrAux : Nat → Nat → Str
  | 0, _ => []
  | fuel + 1, n => if n < 10 then [digitChar n] else natToStrAux fuel (n / 10) ++ [digitChar (n % 10)]

/-- Python str(n) for a natural number. -/
def natToStr (n : Nat) : Str := natToStrAux (n + 1) n

/-- Two-digit zero-padded rendering, as in date.isoformat. -/
def pad2 (n : Nat) : Str := [digitChar (n / 10 % 10), digitChar (n % 10)]

/-- Four-digit zero-padded rendering, as in date.isoformat. -/
def pad4 (n : Nat) : Str :=
  [digitChar (n / 1000 % 10), digitChar (n / 100 % 10), digitChar (n / 10 % 10), digitChar (n % 10)]

/-- A Gregorian calendar date, as produced by Python datetime.date. -/
structure CalDate where
  y : Nat
  m : Nat
  d : Nat
deriving DecidableEq, Repr

/-- Gregorian leap-year rule. -/
def isLeap (y : Nat) : Bool :=
  decide (y % 4 = 0) && (decide (y % 100 ≠ 0) || decide (y % 400 = 0))

/-- Length of a month in the Gregorian calendar. -/
def daysInMonth (y m : Nat) : Nat :=
  if m = 2 then (if isLeap y then 29 else 28)
  else if m = 4 ∨ m = 6 ∨ m = 9 ∨ m = 11 then 30
  else 31

/-- The successor day of a calendar date. -/
def nextDay (t : CalDate) : CalDate :=
  if t.d < daysInMonth t.y t.m then ⟨t.y, t.m, t.d + 1⟩
  else if t.m < 12 then ⟨t.y, t.m + 1, 1⟩
  else ⟨t.y + 1, 1, 1⟩

/-- The predecessor day of a calendar date. -/
def prevDay (t : CalDate) : CalDate :=
  if 1 < t.d then ⟨t.y, t.m, t.d - 1⟩
  else if 1 < t.m then ⟨t.y, t.m - 1, daysInMonth t.y (t.m - 1)⟩
  else ⟨t.y - 1, 12, 31⟩

/-- Python date plus timedelta(days = n). -/
def addDays : CalDate → Nat → CalDate
  | t, 0 => t
  | t, n + 1 => addDays (nextDay t) n

/-- Python date minus timedelta(days = n). -/
def subDays : CalDate → Nat → CalDate
  | t, 0 => t
  | t, n + 1 => subDays (prevDay t) n

/-- Days of the year y that precede month m. -/
def daysBeforeMonth (y : Nat) : Nat → Nat
  | 0 => 0
  | 1 => 0
  | n + 2 => daysBeforeMonth y (n + 1) + daysInMonth y (n + 1)

/-- Rata-die day number of a date (day 1 is 0001-01-01, a Monday). -/
def rataDie (t : CalDate) : Nat :=
  365 * (t.y - 1) + (t.y - 1) / 4 - (t.y - 1) / 100 + (t.y - 1) / 400
    + daysBeforeMonth t.y t.m + t.d

/-- Python date.weekday: Monday is 0, Sunday is 6. -/
def weekdayOf (t : CalDate) : Nat := (rataDie t + 6) % 7

/-- Python date.isoformat. -/
def isoStr (t : CalDate) : Str := pad4 t.y ++ lit "-" ++ pad2 t.m ++ lit "-" ++ pad2 t.d

/-- date_key of the source, line 109: ISO date, underscore, row index. -/
def dateKey (y m d row : Nat) : Str := isoStr ⟨y, m, d⟩ ++ lit "_" ++ natToStr row

/-- The week_action_rows key string built in the source as year-month_week. -/
def weekKey (y m w : Nat) : Str := natToStr y ++ lit "-" ++ natToStr m ++ lit "_" ++ natToStr w

/-- The Monday starting the first extended week of a month. -/
def firstMondayOf (y m : Nat) : CalDate := subDays ⟨y, m, 1⟩ (weekdayOf ⟨y, m, 1⟩)

/-- Number of rows produced by calendar.monthcalendar for a month. -/
def numWeeksOf (y m : Nat) : Nat := (weekdayOf ⟨y, m, 1⟩ + daysInMonth y m + 6) / 7

/-- The _month_weeks_ext helper, source lines 343-354: full Monday-Sunday weeks. -/
def monthWeeksExt (y m : Nat) : List (List CalDate) :=
  (List.range (numWeeksOf y m)).map
    (fun j => (List.range 7).map (fun i => addDays (firstMondayOf y m) (7 * j + i)))

/-- Index scan used by _week_index_for, returning 0 when the date is absent. -/
def weekIndexAux (t : CalDate) : Nat → List (List CalDate) → Nat
  | _, [] => 0
  | i, wk :: rest => if wk.any (fun x => decide (x = t)) then i else weekIndexAux t (i + 1) rest

/-- The _week_index_for helper, source lines 356-362. -/
def weekIndexFor (y m : Nat) (t : CalDate) : Nat := weekIndexAux t 0 (monthWeeksExt y m)

/-- A stored cell value: either a legacy bare string or a text/cancelled record. -/
inductive EntryVal where
  | str (s : Str)
  | rcd (text : Str) (cancelled : Bool)
deriving DecidableEq, Repr

/-- The entries dict of the session state, as an insertion-ordered association list. -/
abbrev Entries := List (Str × EntryVal)

/-- The week_action_rows dict of the session state. -/
abbrev WAR := List (Str × Nat)

/-- The text carried by a stored value, as read by the maintenance-dose scans. -/
def entryTextOf : EntryVal → Str
  | .str s => s
  | .rcd t _ => t

/-- Python dict lookup on the entries store. -/
def lookupEntry : Entries → Str → Option EntryVal
  | [], _ => none
  | p :: rest, k => if p.1 = k then some p.2 else lookupEntry rest k

/-- Python dict item assignment: update in place or append. -/
def setEntry : Entries → Str → EntryVal → Entries
  | [], k, v => [(k, v)]
  | p :: rest, k, v => if p.1 = k then (k, v) :: rest else p :: setEntry rest k v

/-- Python dict pop with a default: removes the key when present. -/
def eraseEntry : Entries → Str → Entries
  | [], _ => []
  | p :: rest, k => if p.1 = k then rest else p :: eraseEntry rest k

/-- The dict invariant of the Python store: keys occur at most once. -/
def keysNodup (es : Entries) : Prop := (es.map Prod.fst).Nodup

/-- Python dict get with default 1, for week_action_rows. -/
def lookupWar : WAR → Str → Nat
  | [], _ => 1
  | p :: rest, k => if p.1 = k then p.2 else lookupWar rest k

/-- Word-boundary test for the position after a regex match. -/
def boundaryAfter : Str → Bool
  | [] => true
  | c :: _ => !wordChar c

/-- Shape test for a patient code: five digits, a dash, three digits. -/
def checkCodeShape : Str → Bool
  | [a, b, c, d, e, f, g, h, i] =>
    a.isDigit && b.isDigit && c.isDigit && d.isDigit && e.isDigit &&
    decide (f = '-') && g.isDigit && h.isDigit && i.isDigit
  | _ => false

/-- The _extract_patient_code helper, source lines 328-332, matching the pattern
of five digits, a dash, three digits at the start followed by a word boundary. -/
def extractCode (txt : Str) : Option Str :=
  let t := trimStr txt
  let code := t.take 9
  if decide (code.length = 9) && checkCodeShape code && boundaryAfter (t.drop 9)
  then some code else none

/-- Membership of a character in a list of allowed digits. -/
def mdDigitOk (allowed : List Char) (c : Char) : Bool := allowed.any (fun a => decide (a = c))

/-- Match of a word-bounded md-token at the present position. -/
def mdAt (allowed : List Char) (pw : Bool) : Str → Bool
  | m :: d :: k :: rest =>
    !pw && decide (m.toLower = 'm') && decide (d.toLower = 'd') &&
    mdDigitOk allowed k && boundaryAfter rest
  | _ => false

/-- Scan of a string for a word-bounded md-token, tracking whether the previous
character was a word character. -/
def mdScan (allowed : List Char) : Bool → Str → Bool
  | _, [] => false
  | pw, c :: t => mdAt allowed pw (c :: t) || mdScan allowed (wordChar c) t

/-- The _is_maintenance helper, source lines 334-335: a word-bounded MD1, MD2 or
MD3 token anywhere in the text, case-insensitive. -/
def isMD (txt : Str) : Bool := mdScan ['1', '2', '3'] false txt

/-- The word-bounded MD1 search used by _cycle_already_scheduled, source line 433. -/
def mdSearch1 (txt : Str) : Bool := mdScan ['1'] false txt

/-- Case-insensitive literal match returning the rest of the input. -/
def matchCI : Str → Str → Option Str
  | [], s => some s
  | _ :: _, [] => none
  | p :: ps, c :: cs => if p = c.toLower then matchCI ps cs else none

/-- Match of the word-bounded initial-dose phrase at the present position. -/
def initDoseAt (pw : Bool) (s : Str) : Bool :=
  !pw &&
  (match matchCI (lit "initial") s with
   | none => false
   | some rest =>
     match matchCI (lit "dose") (rest.dropWhile wsChar) with
     | some rest2 => boundaryAfter rest2
     | none => false)

/-- Scan of a string for the word-bounded initial-dose phrase. -/
def initDoseScan : Bool → Str → Bool
  | _, [] => false
  | pw, c :: t => initDoseAt pw (c :: t) || initDoseScan (wordChar c) t

/-- The initial-dose phrase search of _ensure_initial_suffix, source line 500. -/
def searchInitialDose (txt : Str) : Bool := initDoseScan false txt

/-- Try to match the MD-token alternative of the cleanup pattern of
_schedule_patient_cycle, source line 445. -/
def tryMDTok : Str → Option Str
  | m :: d :: k :: rest =>
    if decide (m.toLower = 'm') && decide (d.toLower = 'd') &&
       mdDigitOk ['1', '2', '3'] k && boundaryAfter rest
    then some rest else none
  | _ => none

/-- Try to match the Initial or Initial-Dose alternative of the cleanup pattern,
with the greedy optional Dose part and its regex backtracking. -/
def tryInitTok (s : Str) : Option Str :=
  match matchCI (lit "initial") s with
  | none => none
  | some rest =>
    match matchCI (lit "dose") (rest.dropWhile wsChar) with
    | some rest2 =>
      if boundaryAfter rest2 then some rest2
      else if boundaryAfter rest then some rest else none
    | none => if boundaryAfter rest then some rest else none

/-- Try either alternative of the cleanup pattern at the present position. -/
def tryMDInitTok (pw : Bool) (s : Str) : Option Str :=
  if pw then none
  else
    match tryMDTok s with
    | some r => some r
    | none => tryInitTok s

/-- Fuel-driven left-to-right replacement of every cleanup-pattern match by
the empty string, as re.sub does in source line 445. -/
def subMDInitAux : Nat → Bool → Str → Str
  | 0, _, s => s
  | _ + 1, _, [] => []
  | fuel + 1, pw, c :: t =>
    match tryMDInitTok pw (c :: t) with
    | some rest => subMDInitAux fuel true rest
    | none => c :: subMDInitAux fuel (wordChar c) t

/-- The first cleanup substitution of _schedule_patient_cycle, source line 445. -/
def subMDInit (s : Str) : Str := subMDInitAux s.length false s

/-- The dash characters accepted as separators by the source regexes. -/
def isDashChar (c : Char) : Bool := decide (c = '-') || decide (c = '–') || decide (c = '—')

/-- The trailing-dash substitution of _schedule_patient_cycle, source line 446. -/
def subTrailDash (s : Str) : Str :=
  match s.reverse.dropWhile wsChar with
  | c :: rest => if isDashChar c then (rest.dropWhile wsChar).reverse else s
  | [] => s

/-- Case-sensitive literal match returning the rest of the input. -/
def matchLit : Str → Str → Option Str
  | [], s => some s
  | _ :: _, [] => none
  | p :: ps, c :: cs => if p = c then matchLit ps cs else none

/-- Match of the word-bounded patient code at the present position. -/
def wbAt (pw : Bool) (pat s : Str) : Bool :=
  !pw &&
  (match matchLit pat s with
   | some rest => boundaryAfter rest
   | none => false)

/-- Scan for the word-bounded escaped patient code, source line 447. -/
def wbScan (pat : Str) : Bool → Str → Bool
  | pw, [] => wbAt pw pat []
  | pw, c :: t => wbAt pw pat (c :: t) || wbScan pat (wordChar c) t

/-- The word-bounded search for the patient code inside the cleaned base text. -/
def wbSearchCode (pat s : Str) : Bool := wbScan pat false s

/-- The cancellation-suffix test of _commit_and_autosave, source line 543. -/
def endsWithCancel (t : Str) : Bool :=
  strEnds (lit "cancel") (lowerStr t) || strEnds (lit "cancelled") (lowerStr t)

/-- Removal of one optional trailing dash with its surrounding whitespace, the
separator part of the cancellation regex of source line 545. -/
def stripSepTail (s1 : Str) : Str :=
  match s1.reverse with
  | c :: rest => if isDashChar c then (rest.dropWhile wsChar).reverse else s1
  | [] => s1

/-- The cancellation-suffix removal of source line 545: drops the cancel keyword,
then the optional separator run of whitespace, one dash and whitespace, exactly
as the end-anchored leftmost regex match does. -/
def stripCancelSub (t : Str) : Str :=
  let base :=
    if strEnds (lit "cancelled") (lowerStr t) then dropLastN t 9
    else if strEnds (lit "cancel") (lowerStr t) then dropLastN t 6
    else t
  stripSepTail (dropTrailWs base)

/-- The _ensure_initial_suffix helper, source lines 496-504. -/
def ensureInitialSuffix (txt : Str) : Str :=
  let s := trimStr txt
  if decide (s = []) then s
  else if searchInitialDose s then s
  else if (extractCode s).isSome && !(isMD s) then s ++ lit " Initial Dose"
  else s

/-- The text handed to predicates by _entry_exists_on_date, source line 398: a
missing entry becomes the Python rendering str(None). -/
def textAtKey (es : Entries) (k : Str) : Str :=
  match lookupEntry es k with
  | some (.rcd t _) => t
  | some (.str s) => s
  | none => lit "None"

/-- The _entry_exists_on_date helper, source lines 389-401: only the rows from 0
to the week row count plus 2 are inspected. -/
def entryExistsOnDate (war : WAR) (es : Entries) (t : CalDate) (pred : Str → Bool) : Bool :=
  let w := weekIndexFor t.y t.m t
  let rows := lookupWar war (weekKey t.y t.m w)
  (List.range (rows + 3)).any (fun r =>
    let tv := textAtKey es (dateKey t.y t.m t.d r)
    !(decide (tv = [])) && pred tv)

/-- Emptiness test of a cell used by _first_empty_row_for_date, source lines 374-383. -/
def cellEmptyVal : Option EntryVal → Bool
  | none => true
  | some (.str s) =>
    let t := trimStr s
    decide (t = []) || decide (lowerStr t = lit "weekend") || decide (lowerStr t = lit "placeholder")
  | some (.rcd tx _) =>
    let t := trimStr tx
    decide (t = []) || decide (lowerStr t = lit "weekend") || decide (lowerStr t = lit "placeholder")

/-- The _first_empty_row_for_date helper, source lines 364-387. -/
def firstEmptyRowForDate (war : WAR) (es : Entries) (t : CalDate) : Nat :=
  let w := weekIndexFor t.y t.m t
  let rows := lookupWar war (weekKey t.y t.m w)
  match (List.range rows).find? (fun r => cellEmptyVal (lookupEntry es (dateKey t.y t.m t.d r))) with
  | some r => r
  | none => rows

/-- The _add_entry_if_absent helper, source lines 403-418: skips the write when an
entry of equal normalized text already exists on the date, and otherwise stores
the stripped text as a bare string in the first empty row. -/
def addEntryIfAbsent (war : WAR) (es : Entries) (t : CalDate) (text : Str) : Entries :=
  let tn := lowerStr (trimStr text)
  if entryExistsOnDate war es t (fun s2 => decide (lowerStr (trimStr s2) = tn)) then es
  else setEntry es (dateKey t.y t.m t.d (firstEmptyRowForDate war es t)) (.str (trimStr text))

/-- The _cycle_already_scheduled helper, source lines 428-434. -/
def cycleAlreadyScheduled (war : WAR) (es : Entries) (code : Str) (initDt : CalDate) (iw : Nat) : Bool :=
  let md1 := addDays initDt (7 * iw)
  let tp := lowerStr (trimStr code)
  entryExistsOnDate war es md1 (fun s2 => strStarts tp (lowerStr (trimStr s2)) && mdSearch1 s2)

/-- The cleaned base label of _schedule_patient_cycle, source lines 444-448. -/
def cleanedBase (code base : Str) : Str :=
  let b0 := if decide (trimStr base = []) then code else trimStr base
  let b1 := trimStr (subTrailDash (subMDInit b0))
  if wbSearchCode code b1 then b1
  else if decide (b1 = []) then code
  else code ++ lit " - " ++ b1

/-- The _schedule_patient_cycle engine, source lines 436-451: requires a patient
code and the isotope marker substring ac, skips an already scheduled cycle, and
otherwise writes one maintenance entry per interval. -/
def schedulePatientCycle (war : WAR) (code : Str) (initDt : CalDate) (nMaint iw : Nat)
    (baseText : Option Str) (es : Entries) : Entries :=
  if decide (code = []) then es
  else
    match baseText with
    | none => es
    | some bt =>
      if decide (bt = []) then es
      else if !(strContains (lowerStr bt) (lit "ac")) then es
      else if cycleAlreadyScheduled war es code initDt iw then es
      else
        (List.range nMaint).foldl
          (fun acc i =>
            addEntryIfAbsent war acc (addDays initDt (7 * iw * (i + 1)))
              (cleanedBase code bt ++ lit " MD" ++ natToStr (i + 1)))
          es

/-- The match criterion of _find_maintenance_doses, source lines 477-491. -/
def mdMatchEntry (code : Str) (e : EntryVal) : Bool :=
  strContains (lowerStr (entryTextOf e)) (lowerStr (trimStr code)) && isMD (entryTextOf e)

/-- The _find_maintenance_doses helper, source lines 477-491. -/
def findMDs (es : Entries) (code : Str) : List (Str × EntryVal) :=
  if decide (code = []) then []
  else es.filter (fun p => mdMatchEntry code p.2)

/-- The maintenance-dose removal loop of the delete branch, source lines 521-525. -/
def deleteMDsByKeys (es : Entries) (code : Str) : Entries :=
  (findMDs es code).foldl (fun acc p => eraseEntry acc p.1) es

/-- The cancellation-propagation loop, source lines 560-569: each found entry is
rewritten as a record with the same text and cancelled set to true. -/
def markMDsCancelled (es : Entries) (code : Str) : Entries :=
  (findMDs es code).foldl (fun acc p => setEntry acc p.1 (.rcd (entryTextOf p.2) true)) es

/-- Numeric value of a decimal digit character. -/
def digitVal (c : Char) : Nat := c.toNat - 48

/-- Strict ISO date parsing as datetime.fromisoformat accepts for date keys. -/
def parseIsoDate (s : Str) : Option CalDate :=
  match s with
  | [y1, y2, y3, y4, h1, m1, m2, h2, d1, d2] =>
    if y1.isDigit && y2.isDigit && y3.isDigit && y4.isDigit && decide (h1 = '-') &&
       m1.isDigit && m2.isDigit && decide (h2 = '-') && d1.isDigit && d2.isDigit then
      let y := digitVal y1 * 1000 + digitVal y2 * 100 + digitVal y3 * 10 + digitVal y4
      let m := digitVal m1 * 10 + digitVal m2
      let d := digitVal d1 * 10 + digitVal d2
      if decide (1 ≤ y) && decide (1 ≤ m) && decide (m ≤ 12) &&
         decide (1 ≤ d) && decide (d ≤ daysInMonth y m)
      then some ⟨y, m, d⟩ else none
    else none
  | _ => none

/-- The _parse_date_from_dkey helper, source lines 337-341. -/
def parseDkeyDate (k : Str) : Option CalDate :=
  parseIsoDate (k.takeWhile (fun c => !decide (c = '_')))

/-- The legacy-string normalization at the head of _commit_and_autosave, source
lines 509-514: the store possibly updated in place, the old text and the old
cancelled flag. -/
def commitConv (es0 : Entries) (dkey : Str) : Entries × Str × Bool :=
  match lookupEntry es0 dkey with
  | some (.str s) => (setEntry es0 dkey (.rcd s false), s, false)
  | some (.rcd t c) => (es0, t, c)
  | none => (es0, [], false)

/-- The delete-keyword branch of _commit_and_autosave, source lines 516-531. -/
def commitDelete (es : Entries) (dkey oldText : Str) : Entries :=
  let es1 :=
    match extractCode oldText with
    | some code => if !(isMD oldText) then deleteMDsByKeys es code else es
    | none => es
  eraseEntry es1 dkey

/-- The patient-code choice of source line 551: the code of the new value with
the code of the old text as fallback. -/
def commitCodeOpt (val oldText : Str) : Option Str :=
  match extractCode val with
  | some c => some c
  | none => extractCode oldText

/-- The auto-scheduling trigger of source lines 585-593: parse the date of the
cell key and run the cycle engine when the key parses. -/
def commitSched (war : WAR) (dkey val : Str) (codeOpt : Option Str) (es3 : Entries) : Entries :=
  match parseDkeyDate dkey with
  | some dt => schedulePatientCycle war (codeOpt.getD []) dt 3 6 (some val) es3
  | none => es3

/-- The ordinary update path of _commit_and_autosave, source lines 538-598:
cancellation detection and propagation, suffixing, entry update and the
auto-scheduling trigger. -/
def commitUpdate (war : WAR) (es : Entries) (dkey raw oldText : Str) (oldCanc : Bool) : Entries :=
  let tv0 := trimStr raw
  let cancFlag := endsWithCancel tv0
  let tv := if cancFlag then trimStr (stripCancelSub tv0) else tv0
  let canc := if cancFlag then true else oldCanc
  let val := ensureInitialSuffix tv
  let codeOpt := commitCodeOpt val oldText
  let es2 :=
    if canc && !oldCanc && codeOpt.isSome && !(isMD oldText) then
      markMDsCancelled es (codeOpt.getD []) else es
  let es3 := setEntry es2 dkey (.rcd val canc)
  if !canc && (!oldCanc || decide (oldText = [])) && codeOpt.isSome && !(isMD val) then
    commitSched war dkey val codeOpt es3
  else es3

/-- The _commit_and_autosave handler, source lines 506-602, restricted to its
effect on the entries store (widget mirrors and disk writes are outside the
data model). -/
def commitAndAutosave (war : WAR) (es0 : Entries) (dkey raw : Str) : Entries :=
  let conv := commitConv es0 dkey
  let es := conv.1
  let oldText := conv.2.1
  let oldCanc := conv.2.2
  if decide (lowerStr (trimStr raw) = lit "delete") then commitDelete es dkey oldText
  else if decide (trimStr raw = []) && !(decide (trimStr oldText = [])) then es
  else commitUpdate war es dkey raw oldText oldCanc

/-- A legend entry as matched by get_color: a label and its colour. -/
structure LegendItem where
  label : Str
  color : Str
deriving DecidableEq, Repr

def COLOR_AC225_RUN_EVG : Str := lit "#A2EBCD"
def COLOR_IN111_RUN_EVG : Str := lit "#6EC6A8"
def COLOR_AC225_RUN_SRX : Str := lit "#F1E183"
def COLOR_IN111_RUN_SRX : Str := lit "#EC712A"
def COLOR_CARDINAL_TPI_NIOWAVE : Str := lit "#0ABB21"
def COLOR_NMCTG : Str := lit "#D0B9E6"
def COLOR_SHUTDOWN : Str := lit "#F5253A"
def COLOR_CONFIRMED : Str := lit "#FF0000"
def COLOR_PV : Str := lit "#3CD63C"
def COLOR_SRX : Str := lit "#3ACCC0"
def COLOR_PERCEPTIVE : Str := lit "#9A6DC1"
def COLOR_BWXT : Str := lit "#3D6E34"
def COLOR_MD : Str := lit "#CC3366"
def COLOR_FALLBACK : Str := lit "#87CEEB"
def COLOR_WEEKEND : Str := lit "#FEF3C7"
def COLOR_US_HOLIDAY : Str := lit "#FF6F3C"
def COLOR_CANCELLED : Str := lit "#E5E7EB"
def COLOR_PLACEHOLDER : Str := lit "#F1E429"

/-- Search for tokens in order with arbitrary gaps, modelling a regex of literal
tokens separated by dot-star. -/
def findAfterTok (p : Str) : Str → Option Str
  | [] => if strStarts p [] then some [] else none
  | c :: t =>
    if strStarts p (c :: t) then some ((c :: t).drop p.length)
    else findAfterTok p t

/-- Ordered-token search: each token occurs after the previous one. -/
def seqSearch : List Str → Str → Bool
  | [], _ => true
  | p :: ps, s =>
    match findAfterTok p s with
    | some rest => seqSearch ps rest
    | none => false

/-- The placeholder-patient pattern of get_color, source line 288. -/
def matchPlaceholderPat : Str → Bool
  | a :: b :: c :: d :: e :: f :: g :: h :: _ =>
    a.isDigit && b.isDigit && c.isDigit && d.isDigit && e.isDigit &&
    decide (f = '-') && decide (g = 'p') && h.isDigit
  | _ => false

/-- The confirmed-patient pattern of get_color, source line 290. -/
def matchConfirmedPat : Str → Bool
  | a :: b :: c :: d :: e :: f :: g :: h :: i :: _ =>
    a.isDigit && b.isDigit && c.isDigit && d.isDigit && e.isDigit &&
    decide (f = '-') && g.isDigit && h.isDigit && i.isDigit
  | _ => false

/-- The trailing md-token pattern of get_color, source line 291. -/
def mdEnd (s : Str) : Bool :=
  match s.reverse with
  | k :: d :: m :: _ => mdDigitOk ['1', '2', '3'] k && decide (m = 'm') && decide (d = 'd')
  | _ => false

/-- The get_color classifier, source lines 244-303. The external holiday source
and the custom closures are passed as the lists of names they contribute. -/
def getColor (legends : List LegendItem) (holidayNames : List Str) (closureNames : List Str)
    (entry : Option EntryVal) : Str :=
  match entry with
  | none => lit "white"
  | some (.str _) => lit "white"
  | some (.rcd t0 canc) =>
    let text := trimStr t0
    if decide (text = []) then lit "white"
    else if canc then COLOR_CANCELLED
    else
      let lower := lowerStr text
      match legends.find? (fun it => strContains lower (lowerStr (trimStr it.label))) with
      | some it => it.color
      | none =>
        if decide (lower = lit "weekend") then COLOR_WEEKEND
        else if holidayNames.any (fun h => decide (lowerStr h = lower)) then COLOR_US_HOLIDAY
        else if closureNames.any (fun c => decide (lowerStr (trimStr c) = lower)) then COLOR_US_HOLIDAY
        else if strContains lower (lit "shutdown") then COLOR_SHUTDOWN
        else if seqSearch [lit "in111", lit "run", lit "srx"] lower then COLOR_IN111_RUN_SRX
        else if seqSearch [lit "ac225", lit "run", lit "srx"] lower then COLOR_AC225_RUN_SRX
        else if seqSearch [lit "in111", lit "run", lit "evg"] lower then COLOR_IN111_RUN_EVG
        else if seqSearch [lit "ac225", lit "run", lit "evg"] lower then COLOR_AC225_RUN_EVG
        else if strStarts (lit "cardinal") lower || strStarts (lit "tpi") lower ||
                strStarts (lit "niowave") lower then COLOR_CARDINAL_TPI_NIOWAVE
        else if strContains lower (lit "nmctg") then COLOR_NMCTG
        else if matchPlaceholderPat lower then COLOR_PLACEHOLDER
        else if matchConfirmedPat lower then
          (if mdEnd lower then COLOR_MD else COLOR_CONFIRMED)
        else if strStarts (lit "pv") lower && strContains lower (lit "srx") then COLOR_PV
        else if decide (lower = lit "srx maintenance") then COLOR_SRX
        else if strContains lower (lit "perceptive") then COLOR_PERCEPTIVE
        else if decide (lower = lit "bwxt order") then COLOR_BWXT
        else COLOR_FALLBACK

/-- A JSON value as the persisted entries dict stores per key. -/
inductive JVal where
  | jstr (s : Str)
  | jobj (text : Option Str) (cancelled : Option Bool)
  | jnull
deriving DecidableEq, Repr

/-- Serialization of one entry by _autosave_now and _save_payload, source lines
112-119 and 131-145: the value is written as it is held in memory. -/
def saveEV : EntryVal → JVal
  | .str s => .jstr s
  | .rcd t c => .jobj (some t) (some c)

/-- Serialization of the whole entries store. -/
def saveEntries (es : Entries) : List (Str × JVal) := es.map (fun p => (p.1, saveEV p.2))

/-- Normalization on load of _load_from_disk_into_state, source lines 189-206:
dict values get missing keys defaulted, bare strings become stripped records
with cancelled false, and null becomes an empty record. -/
def loadEV : JVal → EntryVal
  | .jobj ot oc => .rcd (ot.getD []) (oc.getD false)
  | .jstr s => .rcd (trimStr s) false
  | .jnull => .rcd [] false

/-- Load normalization of the whole persisted entries dict. -/
def loadEntries (l : List (Str × JVal)) : Entries := l.map (fun p => (p.1, loadEV p.2))

/-- The intended effect of the save-then-load round trip on one entry value. -/
def normEV : EntryVal → EntryVal
  | .str s => .rcd (trimStr s) false
  | .rcd t c => .rcd t c

/-- Head-character test: the string starts with a non-whitespace character. -/
def headNotWs : Str → Bool
  | [] => false
  | c :: _ => !wsChar c

/-- Last-character test: the string ends with a non-whitespace character. -/
def lastNotWs (l : Str) : Bool := headNotWs l.reverse

/-- Last-character test: the string does not end with a dash separator. -/
def lastNotDashB (l : Str) : Bool :=
  match l.reverse with
  | [] => true
  | c :: _ => !isDashChar c

/-- The trailing cancellation markers recognised by the commit handler: the
keyword cancel or cancelled, preceded by a space and an optional dash,
en-dash or em-dash separator. -/
def cancelSuffixes : List Str :=
  [lit " cancel", lit " - cancel", lit " – cancel", lit " — cancel",
   lit " cancelled", lit " - cancelled", lit " – cancelled", lit " — cancelled"]

/-- The text written for the k-th maintenance dose by _schedule_patient_cycle. -/
def mdText (code base : Str) (i : Nat) : Str :=
  trimStr (cleanedBase code base ++ lit " MD" ++ natToStr i)

/-- The store produced by committing the example initial dose of the spec on an
empty store: the suffixed initial entry plus three maintenance entries. -/
def s1Store : Entries :=
  [((lit "2025-01-06_0"), EntryVal.rcd (lit "10234-001 AC225 Initial Dose") false),
   ((lit "2025-02-17_0"), EntryVal.str (lit "10234-001 AC225 MD1")),
   ((lit "2025-03-31_0"), EntryVal.str (lit "10234-001 AC225 MD2")),
   ((lit "2025-05-12_0"), EntryVal.str (lit "10234-001 AC225 MD3"))]

/-- A store holding an initial dose of one patient and a maintenance entry of a
second patient whose text mentions the first patient code. -/
def crossStore : Entries :=
  [((lit "2025-01-06_0"), EntryVal.rcd (lit "10234-001 AC225 Initial Dose") false),
   ((lit "2025-02-20_0"), EntryVal.str (lit "99999-888 see 10234-001 MD1"))]

/-- A store whose only maintenance entry sits at row index 4, above the rows
inspected by _entry_exists_on_date when the week row count is 1. -/
def highRowStore : Entries :=
  [((lit "2025-02-17_4"), EntryVal.str (lit "10234-001 AC225 MD1"))]

/- ===== Helper lemmas on the association-list store ===== -/

theorem lookup_setEntry_self (es : Entries) (k : Str) (v : EntryVal) :
    lookupEntry (setEntry es k v) k = some v := by
  induction es with
  | nil => simp [setEntry, lookupEntry]
  | cons p rest ih =>
    by_cases h : p.1 = k
    · simp [setEntry, h, lookupEntry]
    · simp [setEntry, h, lookupEntry, ih]

theorem lookup_setEntry_ne (es : Entries) (k k2 : Str) (v : EntryVal) (h : k2 ≠ k) :
    lookupEntry (setEntry es k v) k2 = lookupEntry es k2 := by
  have hne : k ≠ k2 := Ne.symm h
  induction es with
  | nil => simp [setEntry, lookupEntry, hne]
  | cons p rest ih =>
    by_cases hp : p.1 = k
    · subst hp
      simp [setEntry, lookupEntry, hne]
    · simp [setEntry, hp, lookupEntry, ih]

theorem lookup_eraseEntry_ne (es : Entries) (k k2 : Str) (h : k2 ≠ k) :
    lookupEntry (eraseEntry es k) k2 = lookupEntry es k2 := by
  induction es with
  | nil => simp [eraseEntry]
  | cons p rest ih =>
    by_cases hp : p.1 = k
    · subst hp
      have hne : p.1 ≠ k2 := Ne.symm h
      simp [eraseEntry, lookupEntry, hne]
    · simp [eraseEntry, hp, lookupEntry, ih]

theorem lookup_eq_none_of_not_mem (es : Entries) (k : Str) (h : k ∉ es.map Prod.fst) :
    lookupEntry es k = none := by
  induction es with
  | nil => rfl
  | cons p rest ih =>
    simp only [List.map_cons, List.mem_cons] at h
    push_neg at h
    have hp : p.1 ≠ k := fun hk => h.1 hk.symm
    simp [lookupEntry, hp, ih h.2]

theorem lookup_mem_keys_isSome (es : Entries) (k : Str) (h : k ∈ es.map Prod.fst) :
    lookupEntry es k ≠ none := by
  induction es with
  | nil => simp at h
  | cons p rest ih =>
    by_cases hp : p.1 = k
    · simp [lookupEntry, hp]
    · simp only [List.map_cons, List.mem_cons] at h
      rcases h with h | h
      · exact absurd h.symm hp
      · simp [lookupEntry, hp, ih h]

theorem lookup_none_iff_not_mem (es : Entries) (k : Str) :
    lookupEntry es k = none ↔ k ∉ es.map Prod.fst := by
  constructor
  · intro h hmem
    exact lookup_mem_keys_isSome es k hmem h
  · exact lookup_eq_none_of_not_mem es k

theorem lookup_of_mem (es : Entries) (k : Str) (v : EntryVal) (hnd : keysNodup es)
    (h : (k, v) ∈ es) : lookupEntry es k = some v := by
  induction es with
  | nil => simp at h
  | cons p rest ih =>
    simp only [keysNodup, List.map_cons, List.nodup_cons] at hnd
    rcases List.mem_cons.mp h with h | h
    · rw [← h]
      simp [lookupEntry]
    · have hk : k ∈ rest.map Prod.fst := List.mem_map_of_mem Prod.fst h
      have hp : p.1 ≠ k := fun he => hnd.1 (he ▸ hk)
      simp only [lookupEntry, hp, if_false, if_neg hp]
      exact ih hnd.2 h

theorem lookup_some_mem_keys (es : Entries) (k : Str) (v : EntryVal)
    (h : lookupEntry es k = some v) : k ∈ es.map Prod.fst := by
  by_contra hc
  rw [lookup_eq_none_of_not_mem es k hc] at h
  exact Option.noConfusion h

theorem mem_unique_of_nodup (es : Entries) (k : Str) (v w : EntryVal) (hnd : keysNodup es)
    (hv : (k, v) ∈ es) (hw : (k, w) ∈ es) : v = w := by
  have h1 := lookup_of_mem es k v hnd hv
  have h2 := lookup_of_mem es k w hnd hw
  rw [h1] at h2
  exact (Option.some.injEq _ _).mp h2

theorem setEntry_keys_of_mem (es : Entries) (k : Str) (v : EntryVal)
    (h : k ∈ es.map Prod.fst) : (setEntry es k v).map Prod.fst = es.map Prod.fst := by
  induction es with
  | nil => simp at h
  | cons p rest ih =>
    by_cases hp : p.1 = k
    · simp [setEntry, hp]
    · simp only [List.map_cons, List.mem_cons] at h
      rcases h with h | h
      · exact absurd h.symm hp
      · simp [setEntry, hp, ih h]

theorem setEntry_eq_self_of_lookup (es : Entries) (k : Str) (v : EntryVal)
    (hnd : keysNodup es) (h : lookupEntry es k = some v) : setEntry es k v = es := by
  induction es with
  | nil => simp [lookupEntry] at h
  | cons p rest ih =>
    simp only [keysNodup, List.map_cons, List.nodup_cons] at hnd
    by_cases hp : p.1 = k
    · have h2 : some p.2 = some v := by simpa [lookupEntry, hp] using h
      have hv : p.2 = v := (Option.some.injEq _ _).mp h2
      show setEntry (p :: rest) k v = p :: rest
      simp only [setEntry, if_pos hp]
      rw [← hp, ← hv]
    · have h2 : lookupEntry rest k = some v := by simpa [lookupEntry, hp] using h
      simp [setEntry, hp, ih hnd.2 h2]

theorem eraseEntry_keys_sublist (es : Entries) (k : Str) :
    ((eraseEntry es k).map Prod.fst).Sublist (es.map Prod.fst) := by
  induction es with
  | nil => simp [eraseEntry]
  | cons p rest ih =>
    by_cases hp : p.1 = k
    · simp only [eraseEntry, hp, if_pos, List.map_cons]
      exact List.sublist_cons_self _ _
    · simp only [eraseEntry, hp, if_neg, List.map_cons]
      exact ih.cons₂ p.1

theorem keysNodup_erase (es : Entries) (k : Str) (hnd : keysNodup es) :
    keysNodup (eraseEntry es k) :=
  hnd.sublist (eraseEntry_keys_sublist es k)

theorem lookup_eraseEntry_self (es : Entries) (k : Str) (hnd : keysNodup es) :
    lookupEntry (eraseEntry es k) k = none := by
  induction es with
  | nil => rfl
  | cons p rest ih =>
    simp only [keysNodup, List.map_cons, List.nodup_cons] at hnd
    by_cases hp : p.1 = k
    · simp only [eraseEntry, hp, if_pos]
      exact lookup_eq_none_of_not_mem rest k (hp ▸ hnd.1)
    · simp [eraseEntry, hp, lookupEntry, ih hnd.2]

theorem lookup_erase_of_none (es : Entries) (k k2 : Str)
    (h : lookupEntry es k2 = none) : lookupEntry (eraseEntry es k) k2 = none := by
  rw [lookup_none_iff_not_mem] at h ⊢
  intro hc
  exact h ((eraseEntry_keys_sublist es k).mem hc)

theorem foldl_set_lookup_not_mem (L : List (Str × EntryVal)) (f : EntryVal → EntryVal)
    (es : Entries) (k2 : Str) (h : k2 ∉ L.map Prod.fst) :
    lookupEntry (L.foldl (fun acc p => setEntry acc p.1 (f p.2)) es) k2 = lookupEntry es k2 := by
  induction L generalizing es with
  | nil => rfl
  | cons p rest ih =>
    simp only [List.map_cons, List.mem_cons] at h
    push_neg at h
    simp only [List.foldl_cons]
    rw [ih _ h.2, lookup_setEntry_ne _ _ _ _ h.1]

theorem foldl_set_lookup_mem (L : List (Str × EntryVal)) (f : EntryVal → EntryVal)
    (es : Entries) (k2 : Str) (v : EntryVal) (hnd : (L.map Prod.fst).Nodup)
    (h : (k2, v) ∈ L) :
    lookupEntry (L.foldl (fun acc p => setEntry acc p.1 (f p.2)) es) k2 = some (f v) := by
  induction L generalizing es with
  | nil => simp at h
  | cons p rest ih =>
    simp only [List.map_cons, List.nodup_cons] at hnd
    simp only [List.foldl_cons]
    rcases List.mem_cons.mp h with h | h
    · rw [← h]
      rw [foldl_set_lookup_not_mem rest f _ k2 (by
        rw [← h] at hnd
        exact hnd.1)]
      exact lookup_setEntry_self es k2 (f v)
    · exact ih _ hnd.2 h

theorem foldl_set_keys (L : List (Str × EntryVal)) (f : EntryVal → EntryVal)
    (es : Entries) (h : ∀ p ∈ L, p.1 ∈ es.map Prod.fst) :
    (L.foldl (fun acc p => setEntry acc p.1 (f p.2)) es).map Prod.fst = es.map Prod.fst := by
  induction L generalizing es with
  | nil => rfl
  | cons p rest ih =>
    simp only [List.foldl_cons]
    have hk : (setEntry es p.1 (f p.2)).map Prod.fst = es.map Prod.fst :=
      setEntry_keys_of_mem es p.1 (f p.2) (h p (List.mem_cons_self p rest))
    rw [ih _ (by
      intro q hq
      rw [hk]
      exact h q (List.mem_cons_of_mem p hq)), hk]

theorem foldl_erase_lookup_not_mem (L : List (Str × EntryVal)) (es : Entries) (k2 : Str)
    (h : k2 ∉ L.map Prod.fst) :
    lookupEntry (L.foldl (fun acc p => eraseEntry acc p.1) es) k2 = lookupEntry es k2 := by
  induction L generalizing es with
  | nil => rfl
  | cons p rest ih =>
    simp only [List.map_cons, List.mem_cons] at h
    push_neg at h
    simp only [List.foldl_cons]
    rw [ih _ h.2, lookup_eraseEntry_ne _ _ _ h.1]

theorem foldl_erase_of_none (L : List (Str × EntryVal)) (es : Entries) (k2 : Str)
    (h : lookupEntry es k2 = none) :
    lookupEntry (L.foldl (fun acc p => eraseEntry acc p.1) es) k2 = none := by
  induction L generalizing es with
  | nil => exact h
  | cons p rest ih =>
    simp only [List.foldl_cons]
    exact ih _ (lookup_erase_of_none es p.1 k2 h)

theorem keysNodup_foldl_erase (L : List (Str × EntryVal)) (es : Entries)
    (hnd : keysNodup es) :
    keysNodup (L.foldl (fun acc p => eraseEntry acc p.1) es) := by
  induction L generalizing es with
  | nil => exact hnd
  | cons p rest ih =>
    simp only [List.foldl_cons]
    exact ih _ (keysNodup_erase es p.1 hnd)

theorem foldl_erase_lookup_mem (L : List (Str × EntryVal)) (es : Entries) (k2 : Str)
    (hes : keysNodup es) (h : k2 ∈ L.map Prod.fst) :
    lookupEntry (L.foldl (fun acc p => eraseEntry acc p.1) es) k2 = none := by
  induction L generalizing es with
  | nil => simp at h
  | cons p rest ih =>
    simp only [List.foldl_cons]
    by_cases hp : k2 = p.1
    · apply foldl_erase_of_none
      rw [hp]
      exact lookup_eraseEntry_self es p.1 hes
    · simp only [List.map_cons, List.mem_cons] at h
      rcases h with h | h
      · exact absurd h hp
      · exact ih _ (keysNodup_erase es p.1 hes) h

/- ===== Helper lemmas on the string model ===== -/

theorem strStarts_append_self (p x : Str) : strStarts p (p ++ x) = true := by
  induction p with
  | nil => rfl
  | cons a p ih => simp [strStarts, ih]

theorem strStarts_exists (p l : Str) (h : strStarts p l = true) : ∃ r, l = p ++ r := by
  induction p generalizing l with
  | nil => exact ⟨l, rfl⟩
  | cons a p ih =>
    cases l with
    | nil => simp [strStarts] at h
    | cons b t =>
      simp only [strStarts, Bool.and_eq_true, decide_eq_true_eq] at h
      obtain ⟨r, hr⟩ := ih t h.2
      exact ⟨r, by rw [h.1, hr]; rfl⟩

theorem strStarts_ne_head (a b : Char) (p l : Str) (h : a ≠ b) :
    strStarts (a :: p) (b :: l) = false := by
  simp [strStarts, h]

theorem strEnds_append_self (s x : Str) : strEnds s (x ++ s) = true := by
  unfold strEnds
  rw [List.reverse_append]
  exact strStarts_append_self s.reverse x.reverse

theorem strContains_append_starts (n r : Str) : strContains (n ++ r) n = true := by
  unfold strContains
  rw [strStarts_append_self]
  rfl

theorem strContains_append_left (x h n : Str) (hc : strContains h n = true) :
    strContains (x ++ h) n = true := by
  induction x with
  | nil => exact hc
  | cons c t ih =>
    show strContains (c :: (t ++ h)) n = true
    unfold strContains
    by_cases hs : strStarts n (c :: (t ++ h)) = true
    · rw [hs]
      simp
    · rw [Bool.not_eq_true] at hs
      rw [hs]
      simpa using ih

theorem strContains_mid (x n y : Str) : strContains (x ++ (n ++ y)) n = true :=
  strContains_append_left x (n ++ y) n (strContains_append_starts n y)

theorem dropWhile_len_le (p : Char → Bool) (l : Str) : (l.dropWhile p).length ≤ l.length := by
  induction l with
  | nil => simp
  | cons a l ih =>
    by_cases hp : p a
    · rw [List.dropWhile_cons, if_pos hp]
      exact le_trans ih (by simp)
    · simp [List.dropWhile_cons, hp]

theorem dropWhile_head_false (p : Char → Bool) (l : Str) (c : Char) (t : Str)
    (h : l.dropWhile p = c :: t) : p c = false := by
  induction l with
  | nil => simp [List.dropWhile] at h
  | cons a l ih =>
    by_cases hp : p a
    · rw [List.dropWhile_cons, if_pos hp] at h
      exact ih h
    · rw [List.dropWhile_cons, if_neg hp] at h
      have : a = c := (List.cons.injEq _ _ _ _).mp h |>.1
      rw [← this]
      exact Bool.not_eq_true _ ▸ hp

theorem dropWhile_eq_len (p : Char → Bool) (l : Str)
    (h : (l.dropWhile p).length = l.length) : l.dropWhile p = l := by
  induction l with
  | nil => rfl
  | cons a l ih =>
    by_cases hp : p a
    · exfalso
      rw [List.dropWhile_cons, if_pos hp] at h
      have h1 := dropWhile_len_le p l
      have h2 : (a :: l).length = l.length + 1 := by simp
      omega
    · rw [List.dropWhile_cons, if_neg hp]

theorem dropWhile_cons_false (p : Char → Bool) (c : Char) (t : Str) (h : p c = false) :
    (c :: t).dropWhile p = c :: t := by
  rw [List.dropWhile_cons, h]
  rfl

theorem dropWhile_fix_head (p : Char → Bool) (c : Char) (t : Str)
    (h : (c :: t).dropWhile p = c :: t) : p c = false := by
  by_cases hp : p c
  · exfalso
    rw [List.dropWhile_cons, if_pos hp] at h
    have h2 : (t.dropWhile p).length = (c :: t).length := by rw [h]
    have := dropWhile_len_le p t
    simp only [List.length_cons] at h2
    omega
  · exact Bool.not_eq_true _ ▸ hp

theorem dropTrailWs_len_le (l : Str) : (dropTrailWs l).length ≤ l.length := by
  unfold dropTrailWs
  rw [List.length_reverse]
  calc (l.reverse.dropWhile wsChar).length ≤ l.reverse.length := dropWhile_len_le _ _
    _ = l.length := List.length_reverse l

theorem trim_fix_lead (l : Str) (h : trimStr l = l) : l.dropWhile wsChar = l := by
  apply dropWhile_eq_len
  have h1 : l.length ≤ (l.dropWhile wsChar).length := by
    conv_lhs => rw [← h]
    exact dropTrailWs_len_le _
  have h2 := dropWhile_len_le wsChar l
  omega

theorem trim_fix_trail (l : Str) (h : trimStr l = l) :
    l.reverse.dropWhile wsChar = l.reverse := by
  have h1 : dropTrailWs l = l := by
    have := trim_fix_lead l h
    unfold trimStr at h
    rw [this] at h
    exact h
  unfold dropTrailWs at h1
  have := congrArg List.reverse h1
  rwa [List.reverse_reverse] at this

theorem headNotWs_of_trim_fix (l : Str) (h : trimStr l = l) (hne : l ≠ []) :
    headNotWs l = true := by
  cases l with
  | nil => exact absurd rfl hne
  | cons c t =>
    have := dropWhile_fix_head wsChar c t (trim_fix_lead _ h)
    simp [headNotWs, this]

theorem lastNotWs_of_trim_fix (l : Str) (h : trimStr l = l) (hne : l ≠ []) :
    lastNotWs l = true := by
  have hrev : l.reverse ≠ [] := by
    intro hc
    exact hne (by simpa using congrArg List.reverse hc)
  cases hr : l.reverse with
  | nil => exact absurd hr hrev
  | cons c t =>
    have h2 := trim_fix_trail l h
    rw [hr] at h2
    have := dropWhile_fix_head wsChar c t h2
    simp [lastNotWs, headNotWs, hr, this]

theorem dropTrailWs_fix (l : Str) (h : lastNotWs l = true) : dropTrailWs l = l := by
  unfold dropTrailWs
  cases hr : l.reverse with
  | nil =>
    rw [List.dropWhile_nil]
    rw [← hr, List.reverse_reverse]
  | cons c t =>
    have h2 : (!wsChar c) = true := by
      rw [lastNotWs] at h
      rw [hr] at h
      simpa [headNotWs] using h
    have hc : wsChar c = false := by simpa using h2
    rw [dropWhile_cons_false _ _ _ hc, ← hr, List.reverse_reverse]

theorem lastNotWs_append_right (a b : Str) (h : lastNotWs b = true) :
    lastNotWs (a ++ b) = true := by
  unfold lastNotWs headNotWs at h ⊢
  rw [List.reverse_append]
  cases hr : b.reverse with
  | nil => rw [hr] at h; simp at h
  | cons c t =>
    rw [hr] at h
    simpa using h

theorem trim_append_fix (a b : Str) (ha : trimStr a = a) (hna : a ≠ [])
    (hlb : lastNotWs b = true) : trimStr (a ++ b) = a ++ b := by
  unfold trimStr
  have hdw : (a ++ b).dropWhile wsChar = a ++ b := by
    cases a with
    | nil => exact absurd rfl hna
    | cons c t =>
      have hc := dropWhile_fix_head wsChar c t (trim_fix_lead _ ha)
      show ((c :: (t ++ b)).dropWhile wsChar) = c :: (t ++ b)
      exact dropWhile_cons_false _ _ _ hc
  rw [hdw]
  exact dropTrailWs_fix _ (lastNotWs_append_right a b hlb)

theorem dropLastN_append (a b : Str) : dropLastN (a ++ b) b.length = a := by
  unfold dropLastN
  rw [List.reverse_append]
  have : b.length = b.reverse.length := (List.length_reverse b).symm
  rw [this, List.drop_left, List.reverse_reverse]

theorem dropTrailWs_decomp (u : Str) : ∃ r, u = dropTrailWs u ++ r := by
  refine ⟨(u.reverse.takeWhile wsChar).reverse, ?_⟩
  unfold dropTrailWs
  rw [← List.reverse_append, List.takeWhile_append_dropWhile, List.reverse_reverse]

theorem trim_decomp (l : Str) : ∃ x y, l = x ++ (trimStr l ++ y) := by
  obtain ⟨r, hr⟩ := dropTrailWs_decomp (l.dropWhile wsChar)
  refine ⟨l.takeWhile wsChar, r, ?_⟩
  conv_lhs => rw [← List.takeWhile_append_dropWhile wsChar l]
  rw [hr]
  rfl

theorem trim_idem (l : Str) : trimStr (trimStr l) = trimStr l := by
  cases h : trimStr l with
  | nil => rfl
  | cons c t =>
    have hhead : wsChar c = false := by
      obtain ⟨r, hr⟩ := dropTrailWs_decomp (l.dropWhile wsChar)
      have : l.dropWhile wsChar = (c :: t) ++ r := by
        rw [← h]
        exact hr
      exact dropWhile_head_false wsChar l c (t ++ r) (by rw [this]; rfl)
    have hlast : lastNotWs (trimStr l) = true := by
      unfold lastNotWs headNotWs
      have h2 : (trimStr l).reverse = (l.dropWhile wsChar).reverse.dropWhile wsChar := by
        unfold trimStr dropTrailWs
        rw [List.reverse_reverse]
      cases hr : (trimStr l).reverse with
      | nil =>
        rw [h] at hr
        simp at hr
      | cons c2 t2 =>
        rw [h2] at hr
        have := dropWhile_head_false wsChar _ c2 t2 hr
        simp [this]
    rw [h] at hlast
    show dropTrailWs ((c :: t).dropWhile wsChar) = c :: t
    rw [dropWhile_cons_false _ _ _ hhead]
    exact dropTrailWs_fix _ hlast

theorem extractCode_some (txt c : Str) (h : extractCode txt = some c) :
    c = (trimStr txt).take 9 ∧ c.length = 9 ∧ 9 ≤ (trimStr txt).length := by
  simp only [extractCode] at h
  split at h
  · rename_i hcond
    have hc : c = (trimStr txt).take 9 := ((Option.some.injEq _ _).mp h).symm
    simp only [Bool.and_eq_true, decide_eq_true_eq] at hcond
    have hlen : ((trimStr txt).take 9).length = 9 := hcond.1.1
    refine ⟨hc, by rw [hc]; exact hlen, ?_⟩
    rw [List.length_take] at hlen
    omega
  · exact absurd h (by simp)

theorem contains_lower_code (txt c : Str) (h : extractCode txt = some c) :
    strContains (lowerStr txt) (lowerStr (trimStr c)) = true := by
  obtain ⟨hc, hlen, hge⟩ := extractCode_some txt c h
  obtain ⟨x, y, hxy⟩ := trim_decomp txt
  obtain ⟨x2, y2, hxy2⟩ := trim_decomp c
  have htt : trimStr txt = c ++ (trimStr txt).drop 9 := by
    conv_lhs => rw [← List.take_append_drop 9 (trimStr txt)]
    rw [← hc]
  have hall : lowerStr txt =
      (lowerStr x ++ lowerStr x2) ++
        (lowerStr (trimStr c) ++ (lowerStr y2 ++ (lowerStr ((trimStr txt).drop 9) ++ lowerStr y))) := by
    conv_lhs => rw [hxy, htt, hxy2]
    simp [lowerStr, List.map_append, List.append_assoc]
  rw [hall]
  exact strContains_mid _ _ _

/- ===== Lemmas on the cancellation-suffix handling ===== -/

theorem strStarts_len_eq (p q r : Str) (h : p.length = q.length) :
    strStarts p (q ++ r) = true ↔ p = q := by
  induction p generalizing q with
  | nil =>
    cases q with
    | nil => simp [strStarts]
    | cons b q2 => simp at h
  | cons a p ih =>
    cases q with
    | nil => simp at h
    | cons b q2 =>
      simp only [List.length_cons] at h
      show (decide (a = b) && strStarts p (q2 ++ r)) = true ↔ a :: p = b :: q2
      rw [Bool.and_eq_true, decide_eq_true_eq, ih q2 (by omega)]
      constructor
      · intro hh
        rw [hh.1, hh.2]
      · intro hh
        have := (List.cons.injEq _ _ _ _).mp hh
        exact ⟨this.1, this.2⟩

theorem strEnds_block (a b c : Str) (h : b.length = c.length) :
    strEnds c (a ++ b) = true ↔ c = b := by
  unfold strEnds
  rw [List.reverse_append]
  rw [strStarts_len_eq _ _ _ (by simp [h])]
  constructor
  · intro hh
    exact List.reverse_injective hh
  · intro hh
    rw [hh]

theorem dash_not_ws (c : Char) (h : isDashChar c = true) : wsChar c = false := by
  simp only [isDashChar, Bool.or_eq_true, decide_eq_true_eq] at h
  rcases h with (h | h) | h <;> (subst h; decide)

theorem stripSepTail_no_dash (l : Str) (h : lastNotDashB l = true) : stripSepTail l = l := by
  unfold stripSepTail
  cases hr : l.reverse with
  | nil => rfl
  | cons c rest =>
    have h2 : (!isDashChar c) = true := by
      rw [lastNotDashB] at h
      rw [hr] at h
      simpa using h
    have hc : isDashChar c = false := by simpa using h2
    show (if isDashChar c = true then (rest.dropWhile wsChar).reverse else l) = l
    rw [hc]
    simp

theorem stripSepTail_sep (T : Str) (dch : Char) (hd : isDashChar dch = true)
    (htr : T.reverse.dropWhile wsChar = T.reverse) :
    stripSepTail (T ++ (' ' :: [dch])) = T := by
  unfold stripSepTail
  have hr : (T ++ (' ' :: [dch])).reverse = dch :: ' ' :: T.reverse := by
    rw [List.reverse_append]
    rfl
  rw [hr]
  show (if isDashChar dch = true then ((' ' :: T.reverse).dropWhile wsChar).reverse
        else (T ++ (' ' :: [dch]))) = T
  rw [hd, if_pos rfl]
  rw [List.dropWhile_cons, if_pos (by decide : wsChar ' ' = true), htr, List.reverse_reverse]

theorem dropTrailWs_space (T : Str) (htr : T.reverse.dropWhile wsChar = T.reverse) :
    dropTrailWs (T ++ lit " ") = T := by
  unfold dropTrailWs
  have hr : (T ++ lit " ").reverse = ' ' :: T.reverse := by
    rw [List.reverse_append]
    rfl
  rw [hr, List.dropWhile_cons, if_pos (by decide : wsChar ' ' = true), htr, List.reverse_reverse]

theorem dropTrailWs_sep (T : Str) (dch : Char) (hd : isDashChar dch = true) :
    dropTrailWs (T ++ (' ' :: dch :: [' '])) = T ++ (' ' :: [dch]) := by
  unfold dropTrailWs
  have hr : (T ++ (' ' :: dch :: [' '])).reverse = ' ' :: dch :: ' ' :: T.reverse := by
    rw [List.reverse_append]
    rfl
  rw [hr, List.dropWhile_cons, if_pos (by decide : wsChar ' ' = true),
    List.dropWhile_cons, if_neg (by rw [dash_not_ws dch hd]; exact Bool.false_ne_true)]
  simp [List.reverse_cons, List.append_assoc]

theorem strEnds_cancelled_of_cancel_tail (X : Str) :
    strEnds (lit "cancelled") (X ++ lit " cancel") = false := by
  unfold strEnds
  rw [List.reverse_append]
  rw [show (lit " cancel").reverse = 'l' :: lit "ecnac " from by decide]
  rw [show (lit "cancelled").reverse = 'd' :: lit "ellecnac" from by decide]
  rw [List.cons_append]
  exact strStarts_ne_head _ _ _ _ (by decide)

theorem cancelFacts_cancel_nosep (T : Str) (ht : trimStr T = T) (hne : T ≠ [])
    (hnd : lastNotDashB T = true) :
    trimStr (T ++ lit " cancel") = T ++ lit " cancel" ∧
    endsWithCancel (T ++ lit " cancel") = true ∧
    trimStr (stripCancelSub (T ++ lit " cancel")) = T := by
  have htr := trim_fix_trail T ht
  have hlowT : lowerStr (T ++ lit " cancel") = lowerStr T ++ lit " cancel" := by
    simp only [lowerStr, List.map_append]
    rw [show List.map Char.toLower (lit " cancel") = lit " cancel" from by decide]
  have hEndsC : strEnds (lit "cancel") (lowerStr (T ++ lit " cancel")) = true := by
    rw [hlowT]
    rw [show lowerStr T ++ lit " cancel" = (lowerStr T ++ lit " ") ++ lit "cancel" from by
      simp [List.append_assoc] <;> rfl]
    exact strEnds_append_self _ _
  have hEndsCd : strEnds (lit "cancelled") (lowerStr (T ++ lit " cancel")) = false := by
    rw [hlowT]
    exact strEnds_cancelled_of_cancel_tail _
  refine ⟨?_, ?_, ?_⟩
  · exact trim_append_fix T _ ht hne (by decide)
  · unfold endsWithCancel
    rw [hEndsC]
    rfl
  · have hstrip : stripCancelSub (T ++ lit " cancel") =
        stripSepTail (dropTrailWs (dropLastN (T ++ lit " cancel") 6)) := by
      unfold stripCancelSub
      rw [hEndsCd, hEndsC]
      simp
    have hbase : dropLastN (T ++ lit " cancel") 6 = T ++ lit " " := by
      rw [show T ++ lit " cancel" = (T ++ lit " ") ++ lit "cancel" from by
        simp [List.append_assoc] <;> rfl]
      rw [show (6 : Nat) = (lit "cancel").length from rfl]
      exact dropLastN_append _ _
    rw [hstrip, hbase, dropTrailWs_space T htr, stripSepTail_no_dash T hnd]
    exact ht

theorem cancelFacts_cancel_sep (T : Str) (dch : Char) (ht : trimStr T = T) (hne : T ≠ [])
    (hd : isDashChar dch = true) (hlow : Char.toLower dch = dch) :
    trimStr (T ++ (' ' :: dch :: ' ' :: lit "cancel")) = T ++ (' ' :: dch :: ' ' :: lit "cancel") ∧
    endsWithCancel (T ++ (' ' :: dch :: ' ' :: lit "cancel")) = true ∧
    trimStr (stripCancelSub (T ++ (' ' :: dch :: ' ' :: lit "cancel"))) = T := by
  have htr := trim_fix_trail T ht
  have hlnw : lastNotWs (' ' :: dch :: ' ' :: lit "cancel") = true := by
    rw [show (' ' :: dch :: ' ' :: lit "cancel") = [' ', dch, ' '] ++ lit "cancel" from rfl]
    exact lastNotWs_append_right _ _ (by decide)
  have hlowT : lowerStr (T ++ (' ' :: dch :: ' ' :: lit "cancel")) =
      lowerStr T ++ (' ' :: dch :: ' ' :: lit "cancel") := by
    simp only [lowerStr, List.map_append, List.map_cons]
    rw [hlow]
    rw [show Char.toLower ' ' = ' ' from by decide]
    rw [show List.map Char.toLower (lit "cancel") = lit "cancel" from by decide]
  have hEndsC : strEnds (lit "cancel") (lowerStr (T ++ (' ' :: dch :: ' ' :: lit "cancel"))) = true := by
    rw [hlowT]
    rw [show lowerStr T ++ (' ' :: dch :: ' ' :: lit "cancel") =
        (lowerStr T ++ [' ', dch, ' ']) ++ lit "cancel" from by simp [List.append_assoc] <;> rfl]
    exact strEnds_append_self _ _
  have hEndsCd : strEnds (lit "cancelled") (lowerStr (T ++ (' ' :: dch :: ' ' :: lit "cancel"))) = false := by
    rw [hlowT]
    rw [show lowerStr T ++ (' ' :: dch :: ' ' :: lit "cancel") =
        (lowerStr T ++ [' ', dch]) ++ lit " cancel" from by simp [List.append_assoc] <;> rfl]
    exact strEnds_cancelled_of_cancel_tail _
  refine ⟨?_, ?_, ?_⟩
  · exact trim_append_fix T _ ht hne hlnw
  · unfold endsWithCancel
    rw [hEndsC]
    rfl
  · have hstrip : stripCancelSub (T ++ (' ' :: dch :: ' ' :: lit "cancel")) =
        stripSepTail (dropTrailWs (dropLastN (T ++ (' ' :: dch :: ' ' :: lit "cancel")) 6)) := by
      unfold stripCancelSub
      rw [hEndsCd, hEndsC]
      simp
    have hbase : dropLastN (T ++ (' ' :: dch :: ' ' :: lit "cancel")) 6 = T ++ [' ', dch, ' '] := by
      rw [show T ++ (' ' :: dch :: ' ' :: lit "cancel") =
        (T ++ [' ', dch, ' ']) ++ lit "cancel" from by simp [List.append_assoc] <;> rfl]
      rw [show (6 : Nat) = (lit "cancel").length from rfl]
      exact dropLastN_append _ _
    rw [hstrip, hbase]
    rw [show (T ++ [' ', dch, ' ']) = T ++ (' ' :: dch :: [' ']) from rfl]
    rw [dropTrailWs_sep T dch hd, stripSepTail_sep T dch hd htr]
    exact ht

theorem cancelFacts_cancelled_nosep (T : Str) (ht : trimStr T = T) (hne : T ≠ [])
    (hnd : lastNotDashB T = true) :
    trimStr (T ++ lit " cancelled") = T ++ lit " cancelled" ∧
    endsWithCancel (T ++ lit " cancelled") = true ∧
    trimStr (stripCancelSub (T ++ lit " cancelled")) = T := by
  have htr := trim_fix_trail T ht
  have hlowT : lowerStr (T ++ lit " cancelled") = lowerStr T ++ lit " cancelled" := by
    simp only [lowerStr, List.map_append]
    rw [show List.map Char.toLower (lit " cancelled") = lit " cancelled" from by decide]
  have hEndsCd : strEnds (lit "cancelled") (lowerStr (T ++ lit " cancelled")) = true := by
    rw [hlowT]
    rw [show lowerStr T ++ lit " cancelled" = (lowerStr T ++ lit " ") ++ lit "cancelled" from by
      simp [List.append_assoc] <;> rfl]
    exact strEnds_append_self _ _
  refine ⟨?_, ?_, ?_⟩
  · exact trim_append_fix T _ ht hne (by decide)
  · unfold endsWithCancel
    rw [hEndsCd]
    simp
  · have hstrip : stripCancelSub (T ++ lit " cancelled") =
        stripSepTail (dropTrailWs (dropLastN (T ++ lit " cancelled") 9)) := by
      unfold stripCancelSub
      rw [hEndsCd]
      simp
    have hbase : dropLastN (T ++ lit " cancelled") 9 = T ++ lit " " := by
      rw [show T ++ lit " cancelled" = (T ++ lit " ") ++ lit "cancelled" from by
        simp [List.append_assoc] <;> rfl]
      rw [show (9 : Nat) = (lit "cancelled").length from rfl]
      exact dropLastN_append _ _
    rw [hstrip, hbase, dropTrailWs_space T htr, stripSepTail_no_dash T hnd]
    exact ht

theorem cancelFacts_cancelled_sep (T : Str) (dch : Char) (ht : trimStr T = T) (hne : T ≠ [])
    (hd : isDashChar dch = true) (hlow : Char.toLower dch = dch) :
    trimStr (T ++ (' ' :: dch :: ' ' :: lit "cancelled")) = T ++ (' ' :: dch :: ' ' :: lit "cancelled") ∧
    endsWithCancel (T ++ (' ' :: dch :: ' ' :: lit "cancelled")) = true ∧
    trimStr (stripCancelSub (T ++ (' ' :: dch :: ' ' :: lit "cancelled"))) = T := by
  have htr := trim_fix_trail T ht
  have hlnw : lastNotWs (' ' :: dch :: ' ' :: lit "cancelled") = true := by
    rw [show (' ' :: dch :: ' ' :: lit "cancelled") = [' ', dch, ' '] ++ lit "cancelled" from rfl]
    exact lastNotWs_append_right _ _ (by decide)
  have hlowT : lowerStr (T ++ (' ' :: dch :: ' ' :: lit "cancelled")) =
      lowerStr T ++ (' ' :: dch :: ' ' :: lit "cancelled") := by
    simp only [lowerStr, List.map_append, List.map_cons]
    rw [hlow]
    rw [show Char.toLower ' ' = ' ' from by decide]
    rw [show List.map Char.toLower (lit "cancelled") = lit "cancelled" from by decide]
  have hEndsCd : strEnds (lit "cancelled") (lowerStr (T ++ (' ' :: dch :: ' ' :: lit "cancelled"))) = true := by
    rw [hlowT]
    rw [show lowerStr T ++ (' ' :: dch :: ' ' :: lit "cancelled") =
        (lowerStr T ++ [' ', dch, ' ']) ++ lit "cancelled" from by simp [List.append_assoc] <;> rfl]
    exact strEnds_append_self _ _
  refine ⟨?_, ?_, ?_⟩
  · exact trim_append_fix T _ ht hne hlnw
  · unfold endsWithCancel
    rw [hEndsCd]
    simp
  · have hstrip : stripCancelSub (T ++ (' ' :: dch :: ' ' :: lit "cancelled")) =
        stripSepTail (dropTrailWs (dropLastN (T ++ (' ' :: dch :: ' ' :: lit "cancelled")) 9)) := by
      unfold stripCancelSub
      rw [hEndsCd]
      simp
    have hbase : dropLastN (T ++ (' ' :: dch :: ' ' :: lit "cancelled")) 9 = T ++ [' ', dch, ' '] := by
      rw [show T ++ (' ' :: dch :: ' ' :: lit "cancelled") =
        (T ++ [' ', dch, ' ']) ++ lit "cancelled" from by simp [List.append_assoc] <;> rfl]
      rw [show (9 : Nat) = (lit "cancelled").length from rfl]
      exact dropLastN_append _ _
    rw [hstrip, hbase]
    rw [show (T ++ [' ', dch, ' ']) = T ++ (' ' :: dch :: [' ']) from rfl]
    rw [dropTrailWs_sep T dch hd, stripSepTail_sep T dch hd htr]
    exact ht

theorem cancel_commit_facts (T sfx : Str) (ht : trimStr T = T) (hne : T ≠ [])
    (hnd : lastNotDashB T = true) (hs : sfx ∈ cancelSuffixes) :
    trimStr (T ++ sfx) = T ++ sfx ∧
    endsWithCancel (T ++ sfx) = true ∧
    trimStr (stripCancelSub (T ++ sfx)) = T := by
  simp only [cancelSuffixes, List.mem_cons, List.not_mem_nil, or_false] at hs
  rcases hs with h | h | h | h | h | h | h | h <;> subst h
  · exact cancelFacts_cancel_nosep T ht hne hnd
  · rw [show lit " - cancel" = (' ' :: '-' :: ' ' :: lit "cancel") from rfl]
    exact cancelFacts_cancel_sep T '-' ht hne (by decide) (by decide)
  · rw [show lit " – cancel" = (' ' :: '–' :: ' ' :: lit "cancel") from rfl]
    exact cancelFacts_cancel_sep T '–' ht hne (by decide) (by decide)
  · rw [show lit " — cancel" = (' ' :: '—' :: ' ' :: lit "cancel") from rfl]
    exact cancelFacts_cancel_sep T '—' ht hne (by decide) (by decide)
  · exact cancelFacts_cancelled_nosep T ht hne hnd
  · rw [show lit " - cancelled" = (' ' :: '-' :: ' ' :: lit "cancelled") from rfl]
    exact cancelFacts_cancelled_sep T '-' ht hne (by decide) (by decide)
  · rw [show lit " – cancelled" = (' ' :: '–' :: ' ' :: lit "cancelled") from rfl]
    exact cancelFacts_cancelled_sep T '–' ht hne (by decide) (by decide)
  · rw [show lit " — cancelled" = (' ' :: '—' :: ' ' :: lit "cancelled") from rfl]
    exact cancelFacts_cancelled_sep T '—' ht hne (by decide) (by decide)

/- ===== Lemmas on row-limited date scans and entry insertion ===== -/

theorem lookup_cons_ne (k1 : Str) (v : EntryVal) (rest : Entries) (k : Str) (h : k1 ≠ k) :
    lookupEntry ((k1, v) :: rest) k = lookupEntry rest k := by
  simp [lookupEntry, h]

theorem existsOnDate_false_of_none (war : WAR) (es : Entries) (t : CalDate) (pred : Str → Bool)
    (hnone : ∀ r, r < lookupWar war (weekKey t.y t.m (weekIndexFor t.y t.m t)) + 3 →
      lookupEntry es (dateKey t.y t.m t.d r) = none)
    (hpred : pred (lit "None") = false) :
    entryExistsOnDate war es t pred = false := by
  simp only [entryExistsOnDate]
  rw [List.any_eq_false]
  intro r hr
  have hrlt := List.mem_range.mp hr
  simp only [textAtKey, hnone r hrlt, hpred, Bool.and_false]
  simp

theorem setEntry_append_of_absent (es : Entries) (k : Str) (v : EntryVal)
    (h : lookupEntry es k = none) : setEntry es k v = es ++ [(k, v)] := by
  induction es with
  | nil => rfl
  | cons p rest ih =>
    by_cases hp : p.1 = k
    · simp [lookupEntry, hp] at h
    · simp only [lookupEntry, if_neg hp] at h
      simp [setEntry, hp, ih h]

theorem firstEmptyRow_zero_emptyWar (es : Entries) (t : CalDate)
    (h : lookupEntry es (dateKey t.y t.m t.d 0) = none) :
    firstEmptyRowForDate [] es t = 0 := by
  simp only [firstEmptyRowForDate]
  rw [show lookupWar [] (weekKey t.y t.m (weekIndexFor t.y t.m t)) = 1 from rfl]
  rw [show List.range 1 = [0] from rfl]
  rw [List.find?]
  rw [h]
  rfl

theorem addEntry_absent_emptyWar (es : Entries) (t : CalDate) (text : Str)
    (h : ∀ r, r < 4 → lookupEntry es (dateKey t.y t.m t.d r) = none)
    (htn : lowerStr (trimStr text) ≠ lit "none") :
    addEntryIfAbsent [] es t text =
      es ++ [(dateKey t.y t.m t.d 0, EntryVal.str (trimStr text))] := by
  have hex : entryExistsOnDate [] es t
      (fun s2 => decide (lowerStr (trimStr s2) = lowerStr (trimStr text))) = false := by
    apply existsOnDate_false_of_none
    · intro r hr
      apply h
      rw [show lookupWar [] (weekKey t.y t.m (weekIndexFor t.y t.m t)) = 1 from rfl] at hr
      omega
    · rw [show lowerStr (trimStr (lit "None")) = lit "none" from by decide]
      exact decide_eq_false (fun hh => htn hh.symm)
  simp only [addEntryIfAbsent]
  rw [hex]
  simp only [Bool.false_eq_true, if_false]
  rw [firstEmptyRow_zero_emptyWar es t (h 0 (by omega))]
  exact setEntry_append_of_absent es _ _ (h 0 (by omega))

theorem headNotWs_dropWhile (l : Str) (hne : l.dropWhile wsChar ≠ []) :
    headNotWs (l.dropWhile wsChar) = true := by
  cases hd : l.dropWhile wsChar with
  | nil => exact absurd hd hne
  | cons c t =>
    have := dropWhile_head_false wsChar l c t hd
    simp [headNotWs, this]

theorem dropWhile_fix_of_headNotWs (l : Str) (h : headNotWs l = true) :
    l.dropWhile wsChar = l := by
  cases l with
  | nil => rfl
  | cons c t =>
    have hc : wsChar c = false := by
      simp only [headNotWs] at h
      simpa using h
    exact dropWhile_cons_false _ _ _ hc

theorem strEnds_trim_mdtail (X C : Str) (hlC : lastNotWs C = true)
    (hhC : headNotWs C = true) :
    strEnds C (trimStr (X ++ (lit " " ++ C))) = true := by
  have hB : lastNotWs (lit " " ++ C) = true := lastNotWs_append_right _ _ hlC
  simp only [trimStr]
  rw [List.dropWhile_append]
  cases hE : (X.dropWhile wsChar).isEmpty
  · simp only [Bool.false_eq_true, if_false]
    rw [dropTrailWs_fix _ (lastNotWs_append_right _ _ hB)]
    rw [show X.dropWhile wsChar ++ (lit " " ++ C) = (X.dropWhile wsChar ++ lit " ") ++ C from by
      simp [List.append_assoc]]
    exact strEnds_append_self _ _
  · simp only [if_true, if_pos]
    rw [show (lit " " ++ C) = ' ' :: C from rfl]
    rw [List.dropWhile_cons, if_pos (by decide : wsChar ' ' = true)]
    rw [dropWhile_fix_of_headNotWs C hhC]
    rw [dropTrailWs_fix _ hlC]
    rw [show C = [] ++ C from rfl]
    exact strEnds_append_self _ _

theorem lowerStr_ne_none_of_ends (W : Str) (C CL : Str) (hend : strEnds C W = true)
    (hlow : lowerStr C = CL) (hno : strEnds CL (lit "none") = false) :
    lowerStr W ≠ lit "none" := by
  intro hW
  obtain ⟨r, hr⟩ := strStarts_exists C.reverse W.reverse hend
  have hW2 : W = r.reverse ++ C := by
    have h2 := congrArg List.reverse hr
    rwa [List.reverse_reverse, List.reverse_append, List.reverse_reverse] at h2
  rw [hW2] at hW
  rw [lowerStr, List.map_append] at hW
  have hmk : strEnds CL (lit "none") = true := by
    rw [← hW, show List.map Char.toLower C = CL from hlow]
    exact strEnds_append_self _ _
  rw [hno] at hmk
  exact Bool.false_ne_true hmk

theorem commitConv_of_rcd (es : Entries) (k T : Str) (c : Bool)
    (h : lookupEntry es k = some (EntryVal.rcd T c)) : commitConv es k = (es, T, c) := by
  unfold commitConv
  rw [h]

theorem commitConv_of_none (es : Entries) (k : Str)
    (h : lookupEntry es k = none) : commitConv es k = (es, [], false) := by
  unfold commitConv
  rw [h]

theorem commitCodeOpt_some (val oldText c : Str) (h : extractCode val = some c) :
    commitCodeOpt val oldText = some c := by
  unfold commitCodeOpt
  rw [h]

theorem commitSched_some (war : WAR) (dkey val : Str) (codeOpt : Option Str) (es3 : Entries)
    (dt : CalDate) (h : parseDkeyDate dkey = some dt) :
    commitSched war dkey val codeOpt es3 =
      schedulePatientCycle war (codeOpt.getD []) dt 3 6 (some val) es3 := by
  unfold commitSched
  rw [h]

/- ===== Claim theorems ===== -/

set_option maxRecDepth 100000

/-- C1: committing the confirmed-patient initial-dose text 10234-001 AC225, which
carries the booster-isotope marker AC, to the cell dated 2025-01-06 of an empty
store creates exactly three maintenance entries dated 6, 12 and 18 weeks later
(2025-02-17, 2025-03-31, 2025-05-12), each carrying the patient code and ending
with MD1, MD2 and MD3 respectively, beside the suffixed initial entry. -/
theorem C1_maintenance_cascade :
    commitAndAutosave [] [] (lit "2025-01-06_0") (lit "10234-001 AC225") = s1Store ∧
    addDays ⟨2025, 1, 6⟩ (7 * 6) = ⟨2025, 2, 17⟩ ∧
    addDays ⟨2025, 1, 6⟩ (7 * 12) = ⟨2025, 3, 31⟩ ∧
    addDays ⟨2025, 1, 6⟩ (7 * 18) = ⟨2025, 5, 12⟩ ∧
    lookupEntry s1Store (dateKey 2025 2 17 0) = some (EntryVal.str (lit "10234-001 AC225 MD1")) ∧
    lookupEntry s1Store (dateKey 2025 3 31 0) = some (EntryVal.str (lit "10234-001 AC225 MD2")) ∧
    lookupEntry s1Store (dateKey 2025 5 12 0) = some (EntryVal.str (lit "10234-001 AC225 MD3")) ∧
    strContains (lit "10234-001 AC225 MD1") (lit "10234-001") = true ∧
    strContains (lit "10234-001 AC225 MD2") (lit "10234-001") = true ∧
    strContains (lit "10234-001 AC225 MD3") (lit "10234-001") = true ∧
    strEnds (lit "MD1") (lit "10234-001 AC225 MD1") = true ∧
    strEnds (lit "MD2") (lit "10234-001 AC225 MD2") = true ∧
    strEnds (lit "MD3") (lit "10234-001 AC225 MD3") = true ∧
    isMD (lit "10234-001 AC225 MD1") = true ∧
    isMD (lit "10234-001 AC225 MD2") = true ∧
    isMD (lit "10234-001 AC225 MD3") = true := by
  decide

/-- C5 counterexample: committing empty text over a cell holding a non-empty
initial-dose entry leaves the store unchanged; the entry is not deleted, in
contradiction with the claim. -/
theorem C5_counterexample :
    commitAndAutosave []
        [((lit "2025-01-06_0"), EntryVal.rcd (lit "10234-001 AC225 Initial Dose") false)]
        (lit "2025-01-06_0") (lit "") =
      [((lit "2025-01-06_0"), EntryVal.rcd (lit "10234-001 AC225 Initial Dose") false)] ∧
    lookupEntry
        (commitAndAutosave []
          [((lit "2025-01-06_0"), EntryVal.rcd (lit "10234-001 AC225 Initial Dose") false)]
          (lit "2025-01-06_0") (lit ""))
        (lit "2025-01-06_0") ≠ none := by
  refine ⟨by decide, by decide⟩

/-- C5 amended: committing text that is empty after stripping over a cell whose
stored record has non-empty text is a no-op on the entries store; neither the
cell entry nor any maintenance entry is deleted. -/
theorem C5_amended_empty_commit_noop (war : WAR) (es : Entries) (k T raw : Str) (c : Bool)
    (hlook : lookupEntry es k = some (EntryVal.rcd T c))
    (hold : trimStr T ≠ [])
    (hraw : trimStr raw = []) :
    commitAndAutosave war es k raw = es := by
  have h1 : lowerStr (trimStr raw) = [] := by rw [hraw]; rfl
  have h2 : decide (lowerStr (trimStr raw) = lit "delete") = false := by
    rw [h1]
    decide
  have h3 : decide (trimStr raw = ([] : Str)) = true := by
    rw [hraw]
    decide
  have h4 : decide (trimStr T = ([] : Str)) = false := decide_eq_false hold
  unfold commitAndAutosave
  rw [commitConv_of_rcd es k T c hlook]
  simp only [h2, h3, h4, Bool.false_eq_true, if_false, Bool.not_false, Bool.and_true, if_true]

/-- C5 amended witness at a concrete store. -/
theorem C5_amended_witness :
    commitAndAutosave []
        [((lit "2025-01-06_0"), EntryVal.rcd (lit "10234-001 AC225 Initial Dose") false)]
        (lit "2025-01-06_0") (lit "  ") =
      [((lit "2025-01-06_0"), EntryVal.rcd (lit "10234-001 AC225 Initial Dose") false)] :=
  C5_amended_empty_commit_noop []
    [((lit "2025-01-06_0"), EntryVal.rcd (lit "10234-001 AC225 Initial Dose") false)]
    (lit "2025-01-06_0") (lit "10234-001 AC225 Initial Dose") (lit "  ") false
    (by decide) (by decide) (by decide)

/-- C6 counterexample: a legacy bare-string entry with surrounding whitespace is
upgraded on load to a record with the stripped text, not the original string. -/
theorem C6_counterexample :
    loadEntries (saveEntries [((lit "k"), EntryVal.str (lit " A "))]) =
      [((lit "k"), EntryVal.rcd (lit "A") false)] ∧
    loadEntries (saveEntries [((lit "k"), EntryVal.str (lit " A "))]) ≠
      [((lit "k"), EntryVal.rcd (lit " A ") false)] := by
  refine ⟨by decide, by decide⟩

/-- C6 amended: save followed by load turns every legacy bare string s into a
record with text equal to s stripped of surrounding whitespace and cancelled
false, keeps every structured record unchanged, and leaves every entry of the
resulting store in structured record form. -/
theorem C6_amended_roundtrip (es : Entries) :
    loadEntries (saveEntries es) = es.map (fun p => (p.1, normEV p.2)) ∧
    ∀ p ∈ loadEntries (saveEntries es), ∃ t c, p.2 = EntryVal.rcd t c := by
  have h1 : ∀ v : EntryVal, loadEV (saveEV v) = normEV v := by
    intro v
    cases v <;> rfl
  have hmap : loadEntries (saveEntries es) = es.map (fun p => (p.1, normEV p.2)) := by
    induction es with
    | nil => rfl
    | cons p rest ih =>
      show (p.1, loadEV (saveEV p.2)) :: loadEntries (saveEntries rest) =
        (p.1, normEV p.2) :: rest.map (fun p => (p.1, normEV p.2))
      rw [h1 p.2, ih]
  refine ⟨hmap, ?_⟩
  intro p hp
  rw [hmap] at hp
  obtain ⟨q, hq, hpq⟩ := List.mem_map.mp hp
  cases hv : q.2 with
  | str s =>
    refine ⟨trimStr s, false, ?_⟩
    rw [← hpq]
    simp [normEV, hv]
  | rcd t c =>
    refine ⟨t, c, ?_⟩
    rw [← hpq]
    simp [normEV, hv]

/-- C9: an auto-generated maintenance entry is stored by _add_entry_if_absent as
a bare stripped string with no cancelled field, and get_color classifies any
non-record entry value as blank white; in particular the MD1 entry produced by
the example cascade is a bare string classified white. -/
theorem C9_bare_string_md_white (war : WAR) (es : Entries) (t : CalDate) (text : Str)
    (hex : entryExistsOnDate war es t
      (fun s2 => decide (lowerStr (trimStr s2) = lowerStr (trimStr text))) = false) :
    lookupEntry (addEntryIfAbsent war es t text)
        (dateKey t.y t.m t.d (firstEmptyRowForDate war es t)) =
      some (EntryVal.str (trimStr text)) ∧
    (∀ legends holidayNames closureNames s,
      getColor legends holidayNames closureNames (some (EntryVal.str s)) = lit "white") ∧
    lookupEntry s1Store (lit "2025-02-17_0") = some (EntryVal.str (lit "10234-001 AC225 MD1")) ∧
    getColor [] [] [] (some (EntryVal.str (lit "10234-001 AC225 MD1"))) = lit "white" := by
  refine ⟨?_, ?_, by decide, by decide⟩
  · simp only [addEntryIfAbsent, hex, Bool.false_eq_true, if_false]
    exact lookup_setEntry_self _ _ _
  · intro legends holidayNames closureNames s
    rfl

/-- C9 witness at a concrete empty store and the MD1 text of the example. -/
theorem C9_witness :
    lookupEntry (addEntryIfAbsent [] [] ⟨2025, 2, 17⟩ (lit "10234-001 AC225 MD1"))
        (dateKey 2025 2 17 (firstEmptyRowForDate [] [] ⟨2025, 2, 17⟩)) =
      some (EntryVal.str (trimStr (lit "10234-001 AC225 MD1"))) ∧
    (∀ legends holidayNames closureNames s,
      getColor legends holidayNames closureNames (some (EntryVal.str s)) = lit "white") ∧
    lookupEntry s1Store (lit "2025-02-17_0") = some (EntryVal.str (lit "10234-001 AC225 MD1")) ∧
    getColor [] [] [] (some (EntryVal.str (lit "10234-001 AC225 MD1"))) = lit "white" :=
  C9_bare_string_md_white [] [] ⟨2025, 2, 17⟩ (lit "10234-001 AC225 MD1") (by decide)

/-- C10: _entry_exists_on_date inspects only rows 0 through the week row count
plus 2, so when every inspected row is empty it returns false regardless of
entries stored at higher rows; in particular _cycle_already_scheduled reports no
existing MD1 for a store whose only matching MD1 entry sits at row index 4 while
only rows 0 through 3 are inspected. -/
theorem C10_row_limit (war : WAR) (es : Entries) (t : CalDate) (pred : Str → Bool)
    (hnone : ∀ r, r < lookupWar war (weekKey t.y t.m (weekIndexFor t.y t.m t)) + 3 →
      lookupEntry es (dateKey t.y t.m t.d r) = none)
    (hpred : pred (lit "None") = false) :
    entryExistsOnDate war es t pred = false ∧
    cycleAlreadyScheduled [] highRowStore (lit "10234-001") ⟨2025, 1, 6⟩ 6 = false ∧
    lookupEntry highRowStore (dateKey 2025 2 17 4) =
      some (EntryVal.str (lit "10234-001 AC225 MD1")) ∧
    (strStarts (lowerStr (trimStr (lit "10234-001")))
        (lowerStr (trimStr (lit "10234-001 AC225 MD1"))) &&
      mdSearch1 (lit "10234-001 AC225 MD1")) = true ∧
    lookupWar [] (weekKey 2025 2 (weekIndexFor 2025 2 ⟨2025, 2, 17⟩)) + 3 = 4 := by
  refine ⟨existsOnDate_false_of_none war es t pred hnone hpred, by decide, by decide,
    by decide, by decide⟩

/-- C10 witness: the high-row store itself satisfies the emptiness hypothesis on
the inspected rows, so the scan misses its matching entry. -/
theorem C10_witness :
    entryExistsOnDate [] highRowStore ⟨2025, 2, 17⟩
      (fun s2 => strStarts (lowerStr (trimStr (lit "10234-001"))) (lowerStr (trimStr s2)) &&
        mdSearch1 s2) = false ∧
    cycleAlreadyScheduled [] highRowStore (lit "10234-001") ⟨2025, 1, 6⟩ 6 = false ∧
    lookupEntry highRowStore (dateKey 2025 2 17 4) =
      some (EntryVal.str (lit "10234-001 AC225 MD1")) ∧
    (strStarts (lowerStr (trimStr (lit "10234-001")))
        (lowerStr (trimStr (lit "10234-001 AC225 MD1"))) &&
      mdSearch1 (lit "10234-001 AC225 MD1")) = true ∧
    lookupWar [] (weekKey 2025 2 (weekIndexFor 2025 2 ⟨2025, 2, 17⟩)) + 3 = 4 :=
  C10_row_limit [] highRowStore ⟨2025, 2, 17⟩ _ (by decide) (by decide)

/-- C4: re-committing a stored initial-dose text over its own cell when the
engine already sees an MD1 for that patient code six weeks after the initial
date leaves the store unchanged, so no duplicate maintenance entries are
created and the count of that patient MD entries is preserved. -/
theorem C4_no_duplicate_cycle (war : WAR) (es : Entries) (k T code : Str) (d0 : CalDate)
    (hnd : keysNodup es)
    (hlook : lookupEntry es k = some (EntryVal.rcd T false))
    (ht : trimStr T = T)
    (hewc : endsWithCancel T = false)
    (hsid : searchInitialDose T = true)
    (hcode : extractCode T = some code)
    (hmd : isMD T = false)
    (hpd : parseDkeyDate k = some d0)
    (hcyc : cycleAlreadyScheduled war es code d0 6 = true) :
    commitAndAutosave war es k T = es ∧
    findMDs (commitAndAutosave war es k T) code = findMDs es code := by
  have hlen9 : 9 ≤ T.length := by
    have h9 := (extractCode_some T code hcode).2.2
    rwa [ht] at h9
  have hTne : T ≠ [] := by
    intro hc
    rw [hc] at hlen9
    simp at hlen9
  have hcne : code ≠ [] := by
    have h9 := (extractCode_some T code hcode).2.1
    intro hc
    rw [hc] at h9
    simp at h9
  have hdel : decide (lowerStr (trimStr T) = lit "delete") = false := by
    apply decide_eq_false
    intro hc
    have hl : (lowerStr (trimStr T)).length = (lit "delete").length := by rw [hc]
    rw [ht] at hl
    simp only [lowerStr, List.length_map] at hl
    rw [show (lit "delete").length = 6 from rfl] at hl
    omega
  have hcf : endsWithCancel (trimStr T) = false := by
    rw [ht]
    exact hewc
  have hval : ensureInitialSuffix (trimStr T) = T := by
    rw [ht]
    unfold ensureInitialSuffix
    simp only [ht, decide_eq_false hTne, Bool.false_eq_true, if_false, hsid, if_true]
  have hsched : schedulePatientCycle war code d0 3 6 (some T) es = es := by
    unfold schedulePatientCycle
    rw [decide_eq_false hcne]
    simp only [Bool.false_eq_true, if_false]
    rw [decide_eq_false hTne]
    simp only [Bool.false_eq_true, if_false]
    cases hac : strContains (lowerStr T) (lit "ac") with
    | false => simp
    | true =>
      simp only [Bool.not_true, Bool.false_eq_true, if_false]
      rw [hcyc]
      simp
  have hset : setEntry es k (EntryVal.rcd T false) = es :=
    setEntry_eq_self_of_lookup es k _ hnd hlook
  have hupd : commitUpdate war es k T T false = es := by
    simp only [commitUpdate]
    rw [hcf]
    rw [if_neg (Bool.false_ne_true), if_neg (Bool.false_ne_true)]
    rw [hval, commitCodeOpt_some T T code hcode]
    rw [Bool.false_and, Bool.false_and, Bool.false_and, if_neg (Bool.false_ne_true)]
    rw [hset]
    rw [hmd, Bool.not_false, Bool.true_or, Option.isSome_some]
    rw [Bool.true_and, Bool.true_and, Bool.and_true, if_pos rfl]
    rw [commitSched_some war k T (some code) es d0 hpd]
    show schedulePatientCycle war code d0 3 6 (some T) es = es
    exact hsched
  have hmain : commitAndAutosave war es k T = es := by
    unfold commitAndAutosave
    rw [commitConv_of_rcd es k T false hlook]
    show (if decide (lowerStr (trimStr T) = lit "delete") = true then commitDelete es k T
          else if (decide (trimStr T = []) && !decide (trimStr T = [])) = true then es
          else commitUpdate war es k T T false) = es
    rw [hdel, if_neg (Bool.false_ne_true), Bool.and_not_self, if_neg (Bool.false_ne_true)]
    exact hupd
  exact ⟨hmain, by rw [hmain]⟩

/-- C4 witness: re-committing the example initial-dose text over the scheduled
example store changes nothing, and the MD count of the patient stays at three. -/
theorem C4_witness :
    commitAndAutosave [] s1Store (lit "2025-01-06_0") (lit "10234-001 AC225 Initial Dose") =
      s1Store ∧
    findMDs (commitAndAutosave [] s1Store (lit "2025-01-06_0")
        (lit "10234-001 AC225 Initial Dose")) (lit "10234-001") =
      findMDs s1Store (lit "10234-001") :=
  C4_no_duplicate_cycle [] s1Store (lit "2025-01-06_0") (lit "10234-001 AC225 Initial Dose")
    (lit "10234-001") ⟨2025, 1, 6⟩
    (by show (List.map Prod.fst s1Store).Nodup; decide)
    (by decide) (by decide) (by decide) (by decide)
    (by decide) (by decide) (by decide) (by decide)

/-- C3 counterexample: committing delete over the initial-dose cell of patient
10234-001 also removes the entry of patient 99999-888, because its text merely
mentions 10234-001 next to an MD token; entries of other patient codes are not
left untouched. -/
theorem C3_counterexample :
    lookupEntry (commitAndAutosave [] crossStore (lit "2025-01-06_0") (lit "delete"))
        (lit "2025-02-20_0") = none ∧
    extractCode (lit "99999-888 see 10234-001 MD1") = some (lit "99999-888") ∧
    lit "99999-888" ≠ lit "10234-001" ∧
    lookupEntry crossStore (lit "2025-02-20_0") =
      some (EntryVal.str (lit "99999-888 see 10234-001 MD1")) := by
  refine ⟨by decide, by decide, by decide, by decide⟩

/-- C3 amended: committing the literal case-insensitive delete keyword over an
initial-dose cell removes that cell and exactly the entries whose text contains
the patient code as a case-insensitive substring together with an MD1, MD2 or
MD3 token; every other entry is unchanged. Entries of other patient codes are
untouched only when their text does not embed the deleted code next to an MD
token. -/
theorem C3_amended_delete_cascade (war : WAR) (es : Entries) (k T code raw : Str)
    (hnd : keysNodup es)
    (hlook : lookupEntry es k = some (EntryVal.rcd T false))
    (hcode : extractCode T = some code)
    (hmd : isMD T = false)
    (hraw : lowerStr (trimStr raw) = lit "delete") :
    lookupEntry (commitAndAutosave war es k raw) k = none ∧
    (∀ p ∈ es, mdMatchEntry code p.2 = true →
      lookupEntry (commitAndAutosave war es k raw) p.1 = none) ∧
    (∀ p ∈ es, mdMatchEntry code p.2 = false → p.1 ≠ k →
      lookupEntry (commitAndAutosave war es k raw) p.1 = some p.2) := by
  have hcne : code ≠ [] := by
    have h9 := (extractCode_some T code hcode).2.1
    intro hc
    rw [hc] at h9
    simp at h9
  have hfind : findMDs es code = es.filter (fun p => mdMatchEntry code p.2) := by
    unfold findMDs
    rw [decide_eq_false hcne]
    simp
  have hred : commitAndAutosave war es k raw = eraseEntry (deleteMDsByKeys es code) k := by
    unfold commitAndAutosave
    rw [commitConv_of_rcd es k T false hlook]
    show (if decide (lowerStr (trimStr raw) = lit "delete") = true then commitDelete es k T
          else if (decide (trimStr raw = []) && !decide (trimStr T = [])) = true then es
          else commitUpdate war es k raw T false) = eraseEntry (deleteMDsByKeys es code) k
    rw [hraw, if_pos (by decide)]
    unfold commitDelete
    rw [hcode]
    show eraseEntry (if ((!(isMD T)) = true) then deleteMDsByKeys es code else es) k =
      eraseEntry (deleteMDsByKeys es code) k
    rw [hmd, Bool.not_false, if_pos rfl]
  have hnd2 : keysNodup (deleteMDsByKeys es code) := by
    unfold deleteMDsByKeys
    exact keysNodup_foldl_erase _ es hnd
  refine ⟨?_, ?_, ?_⟩
  · rw [hred]
    exact lookup_eraseEntry_self _ k hnd2
  · intro p hp hcrit
    rw [hred]
    have hmem : p.1 ∈ (findMDs es code).map Prod.fst := by
      apply List.mem_map_of_mem Prod.fst
      rw [hfind]
      exact List.mem_filter.mpr ⟨hp, hcrit⟩
    have h1 : lookupEntry (deleteMDsByKeys es code) p.1 = none := by
      unfold deleteMDsByKeys
      exact foldl_erase_lookup_mem _ es p.1 hnd hmem
    exact lookup_erase_of_none _ k p.1 h1
  · intro p hp hcrit hpk
    rw [hred]
    have hnotmem : p.1 ∉ (findMDs es code).map Prod.fst := by
      intro hc
      obtain ⟨q, hq, hq1⟩ := List.mem_map.mp hc
      rw [hfind] at hq
      obtain ⟨hqes, hqcrit⟩ := List.mem_filter.mp hq
      have hqp : q = (p.1, q.2) := by
        rw [← hq1]
      rw [hqp] at hqes
      have := mem_unique_of_nodup es p.1 q.2 p.2 hnd hqes (by
        have : p = (p.1, p.2) := rfl
        rw [← this]
        exact hp)
      rw [this] at hqcrit
      rw [hcrit] at hqcrit
      exact Bool.false_ne_true hqcrit
    have h1 : lookupEntry (deleteMDsByKeys es code) p.1 = lookupEntry es p.1 := by
      unfold deleteMDsByKeys
      exact foldl_erase_lookup_not_mem _ es p.1 hnotmem
    rw [lookup_eraseEntry_ne _ k p.1 hpk, h1]
    exact lookup_of_mem es p.1 p.2 hnd (by
      have : p = (p.1, p.2) := rfl
      rw [← this]
      exact hp)

/-- C3 amended witness on the cross-patient store. -/
theorem C3_amended_witness :
    lookupEntry (commitAndAutosave [] crossStore (lit "2025-01-06_0") (lit "delete"))
        (lit "2025-01-06_0") = none ∧
    (∀ p ∈ crossStore, mdMatchEntry (lit "10234-001") p.2 = true →
      lookupEntry (commitAndAutosave [] crossStore (lit "2025-01-06_0") (lit "delete")) p.1 =
        none) ∧
    (∀ p ∈ crossStore, mdMatchEntry (lit "10234-001") p.2 = false →
      p.1 ≠ lit "2025-01-06_0" →
      lookupEntry (commitAndAutosave [] crossStore (lit "2025-01-06_0") (lit "delete")) p.1 =
        some p.2) :=
  C3_amended_delete_cascade [] crossStore (lit "2025-01-06_0")
    (lit "10234-001 AC225 Initial Dose") (lit "10234-001") (lit "delete")
    (by show (List.map Prod.fst crossStore).Nodup; decide)
    (by decide) (by decide) (by decide) (by decide)

/-- C2: committing the stored text of a non-cancelled initial-dose entry with a
trailing cancel or cancelled keyword, optionally preceded by a dash, en-dash or
em-dash separator, strips the suffix back to the stored text, marks that entry
cancelled, marks every stored maintenance-dose entry of the same patient code
cancelled while preserving its text, and deletes no entry. -/
theorem C2_cancellation_propagation (war : WAR) (es : Entries) (k T code sfx : Str)
    (hnd : keysNodup es)
    (hlook : lookupEntry es k = some (EntryVal.rcd T false))
    (ht : trimStr T = T)
    (hndash : lastNotDashB T = true)
    (hsid : searchInitialDose T = true)
    (hcode : extractCode T = some code)
    (hmd : isMD T = false)
    (hsfx : sfx ∈ cancelSuffixes) :
    lookupEntry (commitAndAutosave war es k (T ++ sfx)) k = some (EntryVal.rcd T true) ∧
    (∀ p ∈ es, extractCode (entryTextOf p.2) = some code → isMD (entryTextOf p.2) = true →
      lookupEntry (commitAndAutosave war es k (T ++ sfx)) p.1 =
        some (EntryVal.rcd (entryTextOf p.2) true)) ∧
    (commitAndAutosave war es k (T ++ sfx)).map Prod.fst = es.map Prod.fst := by
  have hlen9 : 9 ≤ T.length := by
    have h9 := (extractCode_some T code hcode).2.2
    rwa [ht] at h9
  have hTne : T ≠ [] := by
    intro hc
    rw [hc] at hlen9
    simp at hlen9
  have hcne : code ≠ [] := by
    have h9 := (extractCode_some T code hcode).2.1
    intro hc
    rw [hc] at h9
    simp at h9
  obtain ⟨htrimfix, hewc, hstrip⟩ := cancel_commit_facts T sfx ht hTne hndash hsfx
  have hfind : findMDs es code = es.filter (fun p => mdMatchEntry code p.2) := by
    unfold findMDs
    rw [decide_eq_false hcne]
    simp
  have hdel : decide (lowerStr (trimStr (T ++ sfx)) = lit "delete") = false := by
    apply decide_eq_false
    intro hc
    have hl : (lowerStr (trimStr (T ++ sfx))).length = (lit "delete").length := by rw [hc]
    rw [htrimfix] at hl
    simp only [lowerStr, List.length_map, List.length_append] at hl
    rw [show (lit "delete").length = 6 from rfl] at hl
    omega
  have hguard : (decide (trimStr (T ++ sfx) = ([] : Str)) && !decide (trimStr T = ([] : Str))) = false := by
    have h1 : trimStr (T ++ sfx) ≠ [] := by
      rw [htrimfix]
      intro hc
      have h2 := congrArg List.length hc
      simp only [List.length_append, List.length_nil] at h2
      omega
    rw [decide_eq_false h1, Bool.false_and]
  have hensure : ensureInitialSuffix T = T := by
    unfold ensureInitialSuffix
    simp only [ht, decide_eq_false hTne, Bool.false_eq_true, if_false, hsid, if_true]
  have hred : commitAndAutosave war es k (T ++ sfx) =
      setEntry (markMDsCancelled es code) k (EntryVal.rcd T true) := by
    unfold commitAndAutosave
    rw [commitConv_of_rcd es k T false hlook]
    show (if decide (lowerStr (trimStr (T ++ sfx)) = lit "delete") = true then
            commitDelete es k T
          else if (decide (trimStr (T ++ sfx) = []) && !decide (trimStr T = [])) = true then es
          else commitUpdate war es k (T ++ sfx) T false) =
        setEntry (markMDsCancelled es code) k (EntryVal.rcd T true)
    rw [hdel, if_neg (Bool.false_ne_true), hguard, if_neg (Bool.false_ne_true)]
    simp only [commitUpdate]
    rw [htrimfix, hewc]
    rw [if_pos rfl, if_pos rfl]
    rw [hstrip, hensure, commitCodeOpt_some T T code hcode]
    rw [hmd, Bool.not_false, Option.isSome_some, Bool.not_true]
    rw [Bool.true_or]
    simp only [Bool.true_and, Bool.and_true, Bool.false_and, Bool.and_false]
    rw [if_neg (Bool.false_ne_true), if_pos trivial]
    show setEntry (markMDsCancelled es ((some code).getD [])) k (EntryVal.rcd T true) =
      setEntry (markMDsCancelled es code) k (EntryVal.rcd T true)
    rfl
  have hkeysm : (markMDsCancelled es code).map Prod.fst = es.map Prod.fst := by
    unfold markMDsCancelled
    exact foldl_set_keys (findMDs es code) (fun v => EntryVal.rcd (entryTextOf v) true) es
      (fun q hq => by
        rw [hfind] at hq
        exact List.mem_map_of_mem Prod.fst (List.mem_of_mem_filter hq))
  refine ⟨?_, ?_, ?_⟩
  · rw [hred]
    exact lookup_setEntry_self _ _ _
  · intro p hp hpc hpm
    have hpes : (p.1, p.2) ∈ es := hp
    have hkne : p.1 ≠ k := by
      intro hc
      have h1 : lookupEntry es k = some p.2 := by
        rw [← hc]
        exact lookup_of_mem es p.1 p.2 hnd hpes
      rw [hlook] at h1
      have h2 : EntryVal.rcd T false = p.2 := (Option.some.injEq _ _).mp h1
      rw [← h2] at hpm
      simp only [entryTextOf] at hpm
      rw [hmd] at hpm
      exact Bool.false_ne_true hpm
    have hcrit : mdMatchEntry code p.2 = true := by
      unfold mdMatchEntry
      rw [contains_lower_code (entryTextOf p.2) code hpc, hpm]
      rfl
    have hmemf : (p.1, p.2) ∈ findMDs es code := by
      rw [hfind]
      exact List.mem_filter.mpr ⟨hpes, hcrit⟩
    have hfnd : ((findMDs es code).map Prod.fst).Nodup := by
      rw [hfind]
      exact hnd.sublist (List.Sublist.map Prod.fst (List.filter_sublist es))
    rw [hred, lookup_setEntry_ne _ _ _ _ hkne]
    have hres := foldl_set_lookup_mem (findMDs es code)
      (fun v => EntryVal.rcd (entryTextOf v) true) es p.1 p.2 hfnd hmemf
    unfold markMDsCancelled
    exact hres
  · rw [hred]
    have hkm : k ∈ (markMDsCancelled es code).map Prod.fst := by
      rw [hkeysm]
      exact lookup_some_mem_keys es k _ hlook
    rw [setEntry_keys_of_mem _ _ _ hkm, hkeysm]

/-- C2 witness: cancelling the example initial dose over the scheduled example
store marks the initial entry and all three maintenance entries cancelled with
their texts intact, and the key set of the store is unchanged. -/
theorem C2_witness :
    lookupEntry (commitAndAutosave [] s1Store (lit "2025-01-06_0")
        (lit "10234-001 AC225 Initial Dose" ++ lit " - cancel")) (lit "2025-01-06_0") =
      some (EntryVal.rcd (lit "10234-001 AC225 Initial Dose") true) ∧
    (∀ p ∈ s1Store, extractCode (entryTextOf p.2) = some (lit "10234-001") →
      isMD (entryTextOf p.2) = true →
      lookupEntry (commitAndAutosave [] s1Store (lit "2025-01-06_0")
          (lit "10234-001 AC225 Initial Dose" ++ lit " - cancel")) p.1 =
        some (EntryVal.rcd (entryTextOf p.2) true)) ∧
    (commitAndAutosave [] s1Store (lit "2025-01-06_0")
        (lit "10234-001 AC225 Initial Dose" ++ lit " - cancel")).map Prod.fst =
      s1Store.map Prod.fst :=
  C2_cancellation_propagation [] s1Store (lit "2025-01-06_0")
    (lit "10234-001 AC225 Initial Dose") (lit "10234-001") (lit " - cancel")
    (by show (List.map Prod.fst s1Store).Nodup; decide)
    (by decide) (by decide) (by decide) (by decide) (by decide) (by decide) (by decide)

/-- C7: a non-cancelled entry whose text contains a custom legend label
case-insensitively takes that legend's colour, because the legend scan runs
before every built-in pattern; and a cancelled entry with non-empty text takes
the cancelled colour regardless of its content. -/
theorem C7_legend_priority_cancelled_color (legends : List LegendItem)
    (hol clos : List Str) (t u : Str) (item : LegendItem)
    (hne : trimStr t ≠ [])
    (hfind : legends.find?
      (fun it => strContains (lowerStr (trimStr t)) (lowerStr (trimStr it.label))) = some item)
    (hune : trimStr u ≠ []) :
    getColor legends hol clos (some (EntryVal.rcd t false)) = item.color ∧
    getColor legends hol clos (some (EntryVal.rcd u true)) = COLOR_CANCELLED := by
  constructor
  · simp only [getColor]
    rw [decide_eq_false hne, if_neg (Bool.false_ne_true), if_neg (Bool.false_ne_true)]
    rw [hfind]
  · simp only [getColor]
    rw [decide_eq_false hune, if_neg (Bool.false_ne_true), if_pos trivial]

/-- C7 witness: with a custom legend labelled VIP, the text 10234-001 vip —
which also matches the built-in confirmed-patient pattern — classifies to the
legend colour, and the same text cancelled classifies to the cancelled colour. -/
theorem C7_witness :
    matchConfirmedPat (lowerStr (trimStr (lit "10234-001 vip"))) = true ∧
    trimStr (lit "10234-001 vip") ≠ [] ∧
    ([LegendItem.mk (lit "VIP") (lit "#123456")].find?
      (fun it => strContains (lowerStr (trimStr (lit "10234-001 vip")))
        (lowerStr (trimStr it.label))) = some (LegendItem.mk (lit "VIP") (lit "#123456"))) ∧
    getColor [LegendItem.mk (lit "VIP") (lit "#123456")] [] []
      (some (EntryVal.rcd (lit "10234-001 vip") false)) = lit "#123456" ∧
    getColor [LegendItem.mk (lit "VIP") (lit "#123456")] [] []
      (some (EntryVal.rcd (lit "10234-001 vip") true)) = COLOR_CANCELLED := by
  refine ⟨by decide, by decide, by decide, ?_⟩
  exact C7_legend_priority_cancelled_color
    [LegendItem.mk (lit "VIP") (lit "#123456")] [] []
    (lit "10234-001 vip") (lit "10234-001 vip")
    (LegendItem.mk (lit "VIP") (lit "#123456"))
    (by decide) (by decide) (by decide)

/-- C8: cycle eligibility is exactly the case-insensitive substring test for ac
on the committed base text: without it _schedule_patient_cycle changes nothing
on any store, and with it (patient code 10234-001, initial date 2025-01-06,
empty store) it creates exactly the three maintenance entries MD1-MD3. -/
theorem C8_ac_substring_eligibility (base : Str) :
    (strContains (lowerStr base) (lit "ac") = false →
      ∀ (war : WAR) (es : Entries) (code : Str) (d : CalDate) (nm iw : Nat),
        schedulePatientCycle war code d nm iw (some base) es = es) ∧
    (strContains (lowerStr base) (lit "ac") = true →
      schedulePatientCycle [] (lit "10234-001") ⟨2025, 1, 6⟩ 3 6 (some base) [] =
        [(dateKey 2025 2 17 0, EntryVal.str (mdText (lit "10234-001") base 1)),
         (dateKey 2025 3 31 0, EntryVal.str (mdText (lit "10234-001") base 2)),
         (dateKey 2025 5 12 0, EntryVal.str (mdText (lit "10234-001") base 3))] ∧
      strEnds (lit "MD1") (mdText (lit "10234-001") base 1) = true ∧
      strEnds (lit "MD2") (mdText (lit "10234-001") base 2) = true ∧
      strEnds (lit "MD3") (mdText (lit "10234-001") base 3) = true) := by
  constructor
  · intro hac war es code d nm iw
    simp only [schedulePatientCycle]
    by_cases hc : code = []
    · rw [decide_eq_true hc, if_pos rfl]
    · rw [decide_eq_false hc, if_neg (Bool.false_ne_true)]
      by_cases hb : base = []
      · rw [decide_eq_true hb, if_pos rfl]
      · rw [decide_eq_false hb, if_neg (Bool.false_ne_true)]
        rw [hac, Bool.not_false, if_pos rfl]
  · intro hac
    have hbne : base ≠ [] := by
      intro hc
      rw [hc] at hac
      exact absurd hac (by decide)
    have hend1 : strEnds (lit "MD1") (mdText (lit "10234-001") base 1) = true := by
      show strEnds (lit "MD1")
        (trimStr (cleanedBase (lit "10234-001") base ++ lit " MD" ++ natToStr 1)) = true
      rw [List.append_assoc]
      exact strEnds_trim_mdtail (cleanedBase (lit "10234-001") base) (lit "MD1")
        (by decide) (by decide)
    have hend2 : strEnds (lit "MD2") (mdText (lit "10234-001") base 2) = true := by
      show strEnds (lit "MD2")
        (trimStr (cleanedBase (lit "10234-001") base ++ lit " MD" ++ natToStr 2)) = true
      rw [List.append_assoc]
      exact strEnds_trim_mdtail (cleanedBase (lit "10234-001") base) (lit "MD2")
        (by decide) (by decide)
    have hend3 : strEnds (lit "MD3") (mdText (lit "10234-001") base 3) = true := by
      show strEnds (lit "MD3")
        (trimStr (cleanedBase (lit "10234-001") base ++ lit " MD" ++ natToStr 3)) = true
      rw [List.append_assoc]
      exact strEnds_trim_mdtail (cleanedBase (lit "10234-001") base) (lit "MD3")
        (by decide) (by decide)
    have htn1 : lowerStr (trimStr
        (cleanedBase (lit "10234-001") base ++ lit " MD" ++ natToStr (0 + 1))) ≠ lit "none" :=
      lowerStr_ne_none_of_ends (mdText (lit "10234-001") base 1) (lit "MD1") (lit "md1")
        hend1 (by decide) (by decide)
    have htn2 : lowerStr (trimStr
        (cleanedBase (lit "10234-001") base ++ lit " MD" ++ natToStr (1 + 1))) ≠ lit "none" :=
      lowerStr_ne_none_of_ends (mdText (lit "10234-001") base 2) (lit "MD2") (lit "md2")
        hend2 (by decide) (by decide)
    have htn3 : lowerStr (trimStr
        (cleanedBase (lit "10234-001") base ++ lit " MD" ++ natToStr (2 + 1))) ≠ lit "none" :=
      lowerStr_ne_none_of_ends (mdText (lit "10234-001") base 3) (lit "MD3") (lit "md3")
        hend3 (by decide) (by decide)
    have h1 : addEntryIfAbsent [] [] (addDays ⟨2025, 1, 6⟩ (7 * 6 * (0 + 1)))
        (cleanedBase (lit "10234-001") base ++ lit " MD" ++ natToStr (0 + 1)) =
        [(dateKey 2025 2 17 0, EntryVal.str (mdText (lit "10234-001") base 1))] := by
      rw [show addDays (⟨2025, 1, 6⟩ : CalDate) (7 * 6 * (0 + 1)) = ⟨2025, 2, 17⟩ from by decide]
      exact addEntry_absent_emptyWar [] ⟨2025, 2, 17⟩
        (cleanedBase (lit "10234-001") base ++ lit " MD" ++ natToStr (0 + 1))
        (fun r hr => rfl) htn1
    have h2 : addEntryIfAbsent []
        [(dateKey 2025 2 17 0, EntryVal.str (mdText (lit "10234-001") base 1))]
        (addDays ⟨2025, 1, 6⟩ (7 * 6 * (1 + 1)))
        (cleanedBase (lit "10234-001") base ++ lit " MD" ++ natToStr (1 + 1)) =
        [(dateKey 2025 2 17 0, EntryVal.str (mdText (lit "10234-001") base 1)),
         (dateKey 2025 3 31 0, EntryVal.str (mdText (lit "10234-001") base 2))] := by
      rw [show addDays (⟨2025, 1, 6⟩ : CalDate) (7 * 6 * (1 + 1)) = ⟨2025, 3, 31⟩ from by decide]
      refine addEntry_absent_emptyWar
        [(dateKey 2025 2 17 0, EntryVal.str (mdText (lit "10234-001") base 1))] ⟨2025, 3, 31⟩
        (cleanedBase (lit "10234-001") base ++ lit " MD" ++ natToStr (1 + 1)) ?_ htn2
      intro r hr
      interval_cases r <;> rfl
    have h3 : addEntryIfAbsent []
        [(dateKey 2025 2 17 0, EntryVal.str (mdText (lit "10234-001") base 1)),
         (dateKey 2025 3 31 0, EntryVal.str (mdText (lit "10234-001") base 2))]
        (addDays ⟨2025, 1, 6⟩ (7 * 6 * (2 + 1)))
        (cleanedBase (lit "10234-001") base ++ lit " MD" ++ natToStr (2 + 1)) =
        [(dateKey 2025 2 17 0, EntryVal.str (mdText (lit "10234-001") base 1)),
         (dateKey 2025 3 31 0, EntryVal.str (mdText (lit "10234-001") base 2)),
         (dateKey 2025 5 12 0, EntryVal.str (mdText (lit "10234-001") base 3))] := by
      rw [show addDays (⟨2025, 1, 6⟩ : CalDate) (7 * 6 * (2 + 1)) = ⟨2025, 5, 12⟩ from by decide]
      refine addEntry_absent_emptyWar
        [(dateKey 2025 2 17 0, EntryVal.str (mdText (lit "10234-001") base 1)),
         (dateKey 2025 3 31 0, EntryVal.str (mdText (lit "10234-001") base 2))] ⟨2025, 5, 12⟩
        (cleanedBase (lit "10234-001") base ++ lit " MD" ++ natToStr (2 + 1)) ?_ htn3
      intro r hr
      interval_cases r <;> rfl
    refine ⟨?_, hend1, hend2, hend3⟩
    simp only [schedulePatientCycle]
    rw [decide_eq_false hbne, if_neg (Bool.false_ne_true)]
    rw [hac, Bool.not_true, if_neg (Bool.false_ne_true)]
    rw [show cycleAlreadyScheduled [] [] (lit "10234-001") ⟨2025, 1, 6⟩ 6 = false from by decide]
    rw [if_neg (Bool.false_ne_true)]
    rw [show List.range 3 = [0, 1, 2] from rfl]
    rw [List.foldl_cons, List.foldl_cons, List.foldl_cons, List.foldl_nil]
    beta_reduce
    rw [h1, h2, h3]
    rw [show decide ((lit "10234-001" : Str) = []) = false from rfl]
    rw [if_neg (Bool.false_ne_true)]

/-- C8 witness: a confirmed-patient base without ac schedules nothing, and the
example base 10234-001 AC225, whose ac sits inside AC225, yields the three
maintenance entries on the empty store. -/
theorem C8_witness :
    schedulePatientCycle [] (lit "10234-001") ⟨2025, 1, 6⟩ 3 6
      (some (lit "10234-001 XYZ Initial")) [] = [] ∧
    schedulePatientCycle [] (lit "10234-001") ⟨2025, 1, 6⟩ 3 6
      (some (lit "10234-001 AC225")) [] =
      [(dateKey 2025 2 17 0,
        EntryVal.str (mdText (lit "10234-001") (lit "10234-001 AC225") 1)),
       (dateKey 2025 3 31 0,
        EntryVal.str (mdText (lit "10234-001") (lit "10234-001 AC225") 2)),
       (dateKey 2025 5 12 0,
        EntryVal.str (mdText (lit "10234-001") (lit "10234-001 AC225") 3))] :=
  ⟨(C8_ac_substring_eligibility (lit "10234-001 XYZ Initial")).1 (by decide)
      [] [] (lit "10234-001") ⟨2025, 1, 6⟩ 3 6,
   ((C8_ac_substring_eligibility (lit "10234-001 AC225")).2 (by decide)).1⟩
